import Mathlib

/-!
Verification of the shared-yodl preferences module.

The development shallowly embeds the four source files of the repository:
the chain registry (src/constants/index.ts), the string utilities and chain
resolution helpers (src/utils), and the zod validation pipeline together
with its serializer (src/validation/preferences.validation.ts).

JavaScript runtime values flowing through the pipeline are modelled by the
inductive type JVal below.  JavaScript numbers are modelled as integers: no
behaviour the specification claims depends on fractional values.  The value
undefined never occurs inside JSON-decoded data and is modelled by absence
(Option) at the field level.  Host functions whose only observable effect on
the pipeline is a boolean or optional outcome (JSON.parse and the WHATWG URL
validity test behind z.string().url()) are abstracted into an environment
JsEnv; the theorems quantify over that environment, so in particular they
hold for the real host functions.
-/

set_option autoImplicit false

/-- JSON-like JavaScript runtime values, the universe the schemas operate on. -/
inductive JVal where
  | null : JVal
  | bool : Bool → JVal
  | num : Int → JVal
  | str : String → JVal
  | arr : List JVal → JVal
  | obj : List (String × JVal) → JVal

/-- Whitespace for the purposes of the JavaScript trim operation (the common
ASCII whitespace characters; exotic Unicode space classes are outside the
scope of every claim). -/
def isJsSpace (c : Char) : Bool :=
  c == ' ' || c == '\t' || c == '\n' || c == '\r'

/-- Model of the JavaScript String.prototype.trim operation. -/
def jsTrim (s : String) : String :=
  String.mk (((s.data.dropWhile isJsSpace).reverse.dropWhile isJsSpace).reverse)

/-- Model of String.prototype.toLowerCase restricted to ASCII letters. -/
def jsToLower (s : String) : String :=
  String.mk (s.data.map Char.toLower)

/-- Character-list core of the JavaScript split(',') operation. -/
def splitCommaChars : List Char → List (List Char)
  | [] => [[]]
  | c :: rest =>
      let r := splitCommaChars rest
      if c = ',' then [] :: r
      else
        match r with
        | [] => [[c]]
        | h :: t => (c :: h) :: t

/-- Predicate core of String.prototype.startsWith: the first argument is the
whole character list, the second the pattern. -/
def charsStartWith : List Char → List Char → Bool
  | _, [] => true
  | [], _ :: _ => false
  | c :: cs, d :: ds => c == d && charsStartWith cs ds

/-- Model of String.prototype.startsWith. -/
def jsStartsWith (s pat : String) : Bool :=
  charsStartWith s.data pat.data

/-- stringUtils.arrayToCommaString: array.join(','). -/
def arrayToCommaString : List String → String
  | [] => ""
  | [x] => x
  | x :: rest => x ++ "," ++ arrayToCommaString rest

/-- stringUtils.commaStringToArray: array.split(',').map(item => item.trim()). -/
def commaStringToArray (s : String) : List String :=
  (splitCommaChars s.data).map (fun l => jsTrim (String.mk l))

/-- All-decimal-digit nonempty character list read as a natural number. -/
def parseDigitsNonEmpty (l : List Char) : Option Nat :=
  if l ≠ [] ∧ l.all Char.isDigit then
    some (l.foldl (fun acc c => acc * 10 + (c.toNat - 48)) 0)
  else none

/-- Model of the JavaScript Number() conversion on strings, restricted to
decimal integers: surrounding whitespace is trimmed, the empty string maps
to 0, an optionally signed digit string maps to its value, and every other
string maps to NaN, modelled as none.  Fractional, hexadecimal and exponent
forms are outside the scope of every claim. -/
def jsStringToNumber (s : String) : Option Int :=
  let t := (jsTrim s).data
  if t = [] then some 0
  else
    match t with
    | '-' :: rest => (parseDigitsNonEmpty rest).map (fun n => -(n : Int))
    | '+' :: rest => (parseDigitsNonEmpty rest).map (fun n => (n : Int))
    | l => (parseDigitsNonEmpty l).map (fun n => (n : Int))

/-- The ids of SUPPORTED_CHAINS in declaration order: mainnet, polygon,
arbitrum, optimism, gnosis, base. -/
def SUPPORTED_CHAIN_IDS : List Int := [1, 137, 42161, 10, 100, 8453]

/-- The membership test SUPPORTED_CHAINS.some(chain => chain.id === id). -/
def supportedChain (id : Int) : Bool :=
  SUPPORTED_CHAIN_IDS.any (fun c => c == id)

/-- CHAIN_SHORT_NAMES as the ordered entry list Object.entries produces:
declaration order of the object literal in src/constants/index.ts. -/
def CHAIN_SHORT_NAMES : List (String × Int) :=
  [("eth", 1), ("oeth", 10), ("op", 10), ("pol", 137),
   ("gno", 100), ("arb1", 42161), ("base", 8453)]

/-- chainIdToShortName from src/utils:
Object.entries(CHAIN_SHORT_NAMES).find(([_, id]) => id === chainId)?.[0]. -/
def chainIdToShortName (chainId : Int) : Option String :=
  (CHAIN_SHORT_NAMES.find? (fun e => e.2 == chainId)).map (fun e => e.1)

/-- isValidNumber from src/utils: z.number().safeParse(value).success.
zod's z.number() performs a typeof check with no coercion, so the parse
succeeds exactly on number values and fails on every string. -/
def isValidNumber (value : JVal) : Bool :=
  match value with
  | JVal.num _ => true
  | _ => false

/-- resolveChainIdOrShortName from src/utils.  The argument is a string, so
the isValidNumber guard receives a string value; the numeric branch models
Number(chainIdOrShortName).  The else branch lowercases the key and looks it
up in CHAIN_SHORT_NAMES. -/
def resolveChainIdOrShortName (chainIdOrShortName : String) : Option Int :=
  if isValidNumber (JVal.str chainIdOrShortName) then
    jsStringToNumber chainIdOrShortName
  else
    (CHAIN_SHORT_NAMES.find? (fun e => e.1 == jsToLower chainIdOrShortName)).map
      (fun e => e.2)

example : jsTrim "  a b " = "a b" := by decide
example : commaStringToArray "a, b,c" = ["a", "b", "c"] := by decide
example : commaStringToArray "" = [""] := by decide
example : jsStringToNumber "8453" = some 8453 := by decide
example : jsStringToNumber "" = some 0 := by decide
example : jsStringToNumber "eth" = none := by decide
example : chainIdToShortName 10 = some "oeth" := by decide
example : resolveChainIdOrShortName "ETH" = some 1 := by decide
example : resolveChainIdOrShortName "1" = none := by decide

/-- Environment of JavaScript host functions the pipeline observes only
through a boolean or optional outcome: JSON.parse on a string (none models a
thrown SyntaxError) and the URL validity test behind z.string().url(). -/
structure JsEnv where
  jsonParse : String → Option JVal
  isURL : String → Bool

/-- Property access on a JavaScript object value: the first binding wins. -/
def jget (fields : List (String × JVal)) (k : String) : Option JVal :=
  (fields.find? (fun p => p.1 == k)).map (fun p => p.2)

/-- Element validation of z.array(z.string()): every element must be a
string, and the element order is preserved. -/
def parseAllStrings : List JVal → Option (List String)
  | [] => some []
  | JVal.str s :: rest => (parseAllStrings rest).map (fun l => s :: l)
  | _ :: _ => none

/-- TokenConfigSchema: the preprocess turns a comma-separated string into an
array of its trimmed parts, then z.array(z.string()) validates it. -/
def tokenConfigParse (input : JVal) : Option (List String) :=
  match input with
  | JVal.str s => parseAllStrings ((commaStringToArray s).map JVal.str)
  | JVal.arr xs => parseAllStrings xs
  | _ => none

/-- Element validation of z.array(z.union([z.string(), z.number()])). -/
def parseAllStrOrNum : List JVal → Option (List (Sum String Int))
  | [] => some []
  | JVal.str s :: rest => (parseAllStrOrNum rest).map (fun l => Sum.inl s :: l)
  | JVal.num n :: rest => (parseAllStrOrNum rest).map (fun l => Sum.inr n :: l)
  | _ :: _ => none

/-- Per-element resolution step of the ChainConfigSchema transform: strings
go through resolveChainIdOrShortName, numbers pass through unchanged. -/
def resolveChainElem : Sum String Int → Option Int
  | Sum.inl s => resolveChainIdOrShortName s
  | Sum.inr n => some n

/-- Filter of the ChainConfigSchema transform:
id !== 0 && id !== undefined && SUPPORTED_CHAINS.some(chain => chain.id === id). -/
def keepSupportedId (o : Option Int) : Option Int :=
  match o with
  | some id => if id != 0 && supportedChain id then some id else none
  | none => none

/-- ChainConfigSchema preprocess for one item of a comma-separated string:
the item becomes a number when Number(item) is not NaN, else stays a string. -/
def chainItemOfString (item : String) : JVal :=
  match jsStringToNumber item with
  | some n => JVal.num n
  | none => JVal.str item

/-- Shared body of ChainConfigSchema after preprocessing produced an array:
array-of-union validation, then the transform resolving short names and
filtering out invalid or unsupported ids. -/
def chainArrayParse (xs : List JVal) : Option (List Int) :=
  (parseAllStrOrNum xs).map (fun elems =>
    (elems.map resolveChainElem).filterMap keepSupportedId)

/-- ChainConfigSchema: an array input is used directly, a string input is
split on commas with numeric items parsed, and any other input fails the
z.array validation. -/
def chainConfigParse (input : JVal) : Option (List Int) :=
  match input with
  | JVal.arr xs => chainArrayParse xs
  | JVal.str s => chainArrayParse ((commaStringToArray s).map chainItemOfString)
  | _ => none

/-- Field schema z.string().url() of redirectUrl. -/
def redirectUrlParse (env : JsEnv) : JVal → Option String
  | JVal.str s => if env.isURL s then some s else none
  | _ => none

/-- Field schema z.string() of currency. -/
def currencyParse : JVal → Option String
  | JVal.str s => some s
  | _ => none

/-- Field schema z.number().nonnegative() of amount. -/
def amountParse : JVal → Option Int
  | JVal.num n => if 0 ≤ n then some n else none
  | _ => none

/-- Element schema of webhooks:
z.string().url().refine(url => url.startsWith('https://')). -/
def webhookItemParse (env : JsEnv) : JVal → Option String
  | JVal.str s => if env.isURL s && jsStartsWith s "https://" then some s else none
  | _ => none

/-- Element validation of the webhooks array. -/
def parseWebhookList (env : JsEnv) : List JVal → Option (List String)
  | [] => some []
  | v :: rest =>
      match webhookItemParse env v with
      | some s => (parseWebhookList env rest).map (fun l => s :: l)
      | none => none

/-- Field schema z.array(...).max(15) of webhooks. -/
def webhooksParse (env : JsEnv) : JVal → Option (List String)
  | JVal.arr xs =>
      match parseWebhookList env xs with
      | some l => if l.length ≤ 15 then some l else none
      | none => none
  | _ => none

/-- Field schema z.object(\x7bbaseUrl: z.string().url().optional()\x7d) of og.
zod objects in default mode strip unrecognized keys. -/
def ogParse (env : JsEnv) : JVal → Option (Option String)
  | JVal.obj fs =>
      match jget fs "baseUrl" with
      | none => some none
      | some (JVal.str s) => if env.isURL s then some (some s) else none
      | some _ => none
  | _ => none

/-- Parse of one optional field of the zod object: an absent key validates
to an absent value, a present key must satisfy the field schema. -/
def optField {α : Type} (fields : List (String × JVal)) (k : String)
    (p : JVal → Option α) : Option (Option α) :=
  match jget fields k with
  | none => some none
  | some v => (p v).map some

/-- The keys the PreferencesSchema object shape declares; every other key is
handled by catchall(z.unknown()). -/
def KNOWN_KEYS : List String :=
  ["chainIds", "tokenSymbols", "chains", "tokens",
   "redirectUrl", "currency", "amount", "webhooks", "og"]

/-- The canonical preferences object produced by the PreferencesSchema
transform.  Optional fields whose value would be undefined are deleted by
the transform, which the Option encoding expresses as none; extra holds the
catchall properties in input order. -/
structure Preferences where
  chainIds : List Int
  tokenSymbols : List String
  redirectUrl : Option String
  currency : Option String
  amount : Option Int
  webhooks : Option (List String)
  og : Option (Option String)
  extra : List (String × JVal)

/-- The JavaScript nullish coalescing operator a ?? b on option values. -/
def firstSome {α : Type} (a b : Option α) : Option α :=
  match a with
  | some x => some x
  | none => b

/-- Validation and merge transform of the PreferencesSchema object: every
declared field is validated by its schema, then the transform merges chains
over chainIds and tokens over tokenSymbols, drops the write-only chains and
tokens keys, and carries every catchall property through unchanged. -/
def parsePrefObject (env : JsEnv) (fields : List (String × JVal)) : Option Preferences :=
  (optField fields "chainIds" chainConfigParse).bind (fun ci =>
  (optField fields "tokenSymbols" tokenConfigParse).bind (fun ts =>
  (optField fields "chains" chainConfigParse).bind (fun ch =>
  (optField fields "tokens" tokenConfigParse).bind (fun tk =>
  (optField fields "redirectUrl" (redirectUrlParse env)).bind (fun ru =>
  (optField fields "currency" currencyParse).bind (fun cu =>
  (optField fields "amount" amountParse).bind (fun am =>
  (optField fields "webhooks" (webhooksParse env)).bind (fun wh =>
  (optField fields "og" (ogParse env)).bind (fun og =>
  some {
    chainIds := (firstSome ch ci).getD []
    tokenSymbols := (firstSome tk ts).getD []
    redirectUrl := ru
    currency := cu
    amount := am
    webhooks := wh
    og := og
    extra := fields.filter (fun p => !(KNOWN_KEYS.contains p.1)) })))))))))

/-- PreferencesSchema.parse modelled as a total function, with none playing
the role of a thrown ValidationError: a non-empty string input is JSON
decoded with silent recovery to an empty object on failure, then the zod
object validation and merge transform run. -/
def preferencesValidate (env : JsEnv) (input : JVal) : Option Preferences :=
  let pre : JVal :=
    match input with
    | JVal.str s =>
        if jsTrim s ≠ "" then (env.jsonParse s).getD (JVal.obj []) else input
    | _ => input
  match pre with
  | JVal.obj fields => parsePrefObject env fields
  | _ => none

/-- Escape of one character inside a JSON string literal, as produced by
JSON.stringify for the character range the claims exercise. -/
def jsonEscapeChar (c : Char) : String :=
  if c = '"' then "\\\""
  else if c = '\\' then "\\\\"
  else if c = '\n' then "\\n"
  else if c = '\t' then "\\t"
  else if c = '\r' then "\\r"
  else String.mk [c]

/-- JSON string literal for a given string value. -/
def jsonQuote (s : String) : String :=
  "\"" ++ String.join (s.data.map jsonEscapeChar) ++ "\""

mutual

/-- Model of JSON.stringify on the JVal universe. -/
def jsonStringify : JVal → String
  | JVal.null => "null"
  | JVal.bool true => "true"
  | JVal.bool false => "false"
  | JVal.num n => toString n
  | JVal.str s => jsonQuote s
  | JVal.arr xs => "[" ++ jsonStringifyArr xs ++ "]"
  | JVal.obj fs => "\x7b" ++ jsonStringifyObj fs ++ "\x7d"

/-- Comma-separated serialization of array elements. -/
def jsonStringifyArr : List JVal → String
  | [] => ""
  | [x] => jsonStringify x
  | x :: rest => jsonStringify x ++ "," ++ jsonStringifyArr rest

/-- Comma-separated serialization of object entries in insertion order. -/
def jsonStringifyObj : List (String × JVal) → String
  | [] => ""
  | [(k, v)] => jsonQuote k ++ ":" ++ jsonStringify v
  | (k, v) :: rest => jsonQuote k ++ ":" ++ jsonStringify v ++ "," ++ jsonStringifyObj rest

end

/-- Input of convertPreferencesToText: a JavaScript object with optional
chainIds and tokenSymbols properties of the canonical element types, plus
every other own property in insertion order (their keys are by construction
distinct from chainIds and tokenSymbols). -/
structure PrefsIn where
  chainIds : Option (List Int)
  tokenSymbols : Option (List String)
  others : List (String × JVal)

/-- JavaScript truthiness filter of .filter(Boolean) on an array of strings
or undefined values: undefined and the empty string are dropped. -/
def jsTruthyName (o : Option String) : Option String :=
  match o with
  | some s => if s = "" then none else some s
  | none => none

/-- Assignment formattedPreferences[key] = value on an insertion-ordered
object whose values may be undefined: an existing key keeps its position,
a new key is appended. -/
def upsertKV (l : List (String × Option JVal)) (k : String) (v : Option JVal) :
    List (String × Option JVal) :=
  if l.any (fun p => p.1 == k) then
    l.map (fun p => if p.1 == k then (k, v) else p)
  else l ++ [(k, v)]

/-- The processedChains intermediate of convertPreferencesToText:
preferences.chainIds?.map(chainIdToShortName).filter(Boolean). -/
def prefProcessedChains (preferences : PrefsIn) : Option (List String) :=
  preferences.chainIds.map (fun ids =>
    (ids.map chainIdToShortName).filterMap jsTruthyName)

/-- The value stored under the tokens key: the comma join of tokenSymbols
when that field is truthy (an array always is), undefined otherwise. -/
def prefTokensVal (preferences : PrefsIn) : Option JVal :=
  preferences.tokenSymbols.map (fun ts => JVal.str (arrayToCommaString ts))

/-- The value stored under the chains key: the comma join of the processed
short names when chainIds was present and at least one name survived,
undefined otherwise. -/
def prefChainsVal (preferences : PrefsIn) : Option JVal :=
  match prefProcessedChains preferences with
  | some l => if l.length > 0 then some (JVal.str (arrayToCommaString l)) else none
  | none => none

/-- Removal of undefined-valued keys before JSON.stringify. -/
def dropUndefined (l : List (String × Option JVal)) : List (String × JVal) :=
  l.filterMap (fun kv => kv.2.map (fun v => (kv.1, v)))

/-- The object convertPreferencesToText builds before stringifying: tokens
and chains are inserted first (possibly with undefined values), every other
input property is copied in order (an assignment to an existing key keeps
its position), and undefined-valued keys are removed. -/
def formatPreferences (preferences : PrefsIn) : List (String × JVal) :=
  dropUndefined
    (preferences.others.foldl (fun acc kv => upsertKV acc kv.1 (some kv.2))
      [("tokens", prefTokensVal preferences), ("chains", prefChainsVal preferences)])

/-- convertPreferencesToText from src/validation/preferences.validation.ts:
chain ids are mapped back to short names and joined under the chains key,
token symbols are joined under the tokens key, all other properties are
copied verbatim, undefined keys are removed, and the result is the JSON
serialization of that object. -/
def convertPreferencesToText (preferences : PrefsIn) : String :=
  jsonStringify (JVal.obj (formatPreferences preferences))

example :
    convertPreferencesToText
      { chainIds := some [1, 10], tokenSymbols := some ["ETH", "DAI"], others := [] }
      = "\x7b\"tokens\":\"ETH,DAI\",\"chains\":\"eth,oeth\"\x7d" := by decide

/-- Entry list of one optional property of a JavaScript object literal. -/
def optEntry (k : String) (o : Option JVal) : List (String × JVal) :=
  match o with
  | some v => [(k, v)]
  | none => []

/-- JavaScript object value of a validated og field. -/
def ogToJVal (og : Option String) : JVal :=
  JVal.obj (match og with
    | some s => [("baseUrl", JVal.str s)]
    | none => [])

/-- The canonical preferences object rendered back as the JavaScript object
validate returned: chainIds and tokenSymbols always present, optional fields
present exactly when defined, catchall properties carried verbatim. -/
def preferencesToJVal (p : Preferences) : List (String × JVal) :=
  ("chainIds", JVal.arr (p.chainIds.map JVal.num)) ::
  ("tokenSymbols", JVal.arr (p.tokenSymbols.map JVal.str)) ::
  (optEntry "redirectUrl" (p.redirectUrl.map JVal.str) ++
    (optEntry "currency" (p.currency.map JVal.str) ++
      (optEntry "amount" (p.amount.map JVal.num) ++
        (optEntry "webhooks" (p.webhooks.map (fun l => JVal.arr (l.map JVal.str))) ++
          (optEntry "og" (p.og.map ogToJVal) ++ p.extra)))))

/-- The all-defaults canonical object: empty chainIds and tokenSymbols and
nothing else. -/
def defaultPreferences : Preferences :=
  { chainIds := [], tokenSymbols := [], redirectUrl := none, currency := none,
    amount := none, webhooks := none, og := none, extra := [] }

/-- Test for a string value. -/
def isStrB : JVal → Bool
  | JVal.str _ => true
  | _ => false

/-- Test for a string or number value. -/
def isStrOrNumB : JVal → Bool
  | JVal.str _ => true
  | JVal.num _ => true
  | _ => false

/-- Specification-side shape predicate of a chain field value: an array of
strings and numbers, or a comma string.  Written from the claim wording, to
be compared with chainConfigParse. -/
def chainShapeOk : JVal → Bool
  | JVal.str _ => true
  | JVal.arr xs => xs.all isStrOrNumB
  | _ => false

/-- Specification-side shape predicate of a token field value: an array of
strings, or a comma string. -/
def tokenShapeOk : JVal → Bool
  | JVal.str _ => true
  | JVal.arr xs => xs.all isStrB
  | _ => false

/-- Specification-side predicate of a valid redirectUrl value: a string that
is a syntactically valid URL of any scheme. -/
def redirectOkB (env : JsEnv) : JVal → Bool
  | JVal.str s => env.isURL s
  | _ => false

/-- Specification-side predicate of a valid currency value: a string. -/
def currencyOkB : JVal → Bool
  | JVal.str _ => true
  | _ => false

/-- Specification-side predicate of a valid amount value: a non-negative
number. -/
def amountOkB : JVal → Bool
  | JVal.num n => decide (0 ≤ n)
  | _ => false

/-- Specification-side predicate of a valid webhook entry: a valid URL that
uses the https scheme. -/
def webhookOkB (env : JsEnv) : JVal → Bool
  | JVal.str s => env.isURL s && jsStartsWith s "https://"
  | _ => false

/-- Specification-side predicate of a valid webhooks value: at most 15
entries, each a valid https URL string. -/
def webhooksOkB (env : JsEnv) : JVal → Bool
  | JVal.arr xs => xs.length ≤ 15 && xs.all (webhookOkB env)
  | _ => false

/-- Specification-side predicate of a valid og value: an object whose
baseUrl, when present, is a valid URL string. -/
def ogOkB (env : JsEnv) : JVal → Bool
  | JVal.obj fs =>
      match jget fs "baseUrl" with
      | none => true
      | some (JVal.str s) => env.isURL s
      | some _ => false
  | _ => false

/-- Specification-side catalogue of the failure conditions of validate: a
recognized field violates its contract; every unrecognized field is always
acceptable. -/
def fieldOk (env : JsEnv) (k : String) (v : JVal) : Bool :=
  if k = "chainIds" ∨ k = "chains" then chainShapeOk v
  else if k = "tokenSymbols" ∨ k = "tokens" then tokenShapeOk v
  else if k = "redirectUrl" then redirectOkB env v
  else if k = "currency" then currencyOkB v
  else if k = "amount" then amountOkB v
  else if k = "webhooks" then webhooksOkB env v
  else if k = "og" then ogOkB env v
  else true

/-- A chain array element the specification says is silently dropped: a
string resolving to none, to the sentinel zero, or to an unsupported id, or
a number that is zero or unsupported. -/
def badChainElem (v : JVal) : Prop :=
  (∃ s, v = JVal.str s ∧
    (resolveChainIdOrShortName s = none ∨
     resolveChainIdOrShortName s = some 0 ∨
     ∃ id, resolveChainIdOrShortName s = some id ∧ supportedChain id = false))
  ∨ (∃ n, v = JVal.num n ∧ (n = 0 ∨ supportedChain n = false))

/-- Entries of an insertion-ordered object carrying a given key. -/
def filterKey {α : Type} (l : List (String × α)) (k : String) : List (String × α) :=
  l.filter (fun p => p.1 == k)

theorem find?_eq_some_split {α : Type} (p : α → Bool) :
    ∀ (l : List α) (a : α),
      l.find? p = some a ↔
        p a = true ∧ ∃ l1 l2, l = l1 ++ a :: l2 ∧ ∀ b ∈ l1, p b = false := by
  intro l
  induction l with
  | nil => intro a; simp
  | cons x xs ih =>
    intro a
    cases hp : p x with
    | true =>
      rw [List.find?_cons_of_pos _ hp]
      constructor
      · intro h
        obtain rfl : x = a := Option.some.inj h
        exact ⟨hp, [], xs, rfl, by simp⟩
      · rintro ⟨hpa, l1, l2, heq, hl1⟩
        cases l1 with
        | nil =>
          simp only [List.nil_append, List.cons.injEq] at heq
          rw [heq.1]
        | cons y l1' =>
          simp only [List.cons_append, List.cons.injEq] at heq
          have hy := hl1 y (by simp)
          rw [← heq.1, hp] at hy
          cases hy
    | false =>
      rw [List.find?_cons_of_neg _ (by simp [hp])]
      rw [ih a]
      constructor
      · rintro ⟨hpa, l1, l2, rfl, hl1⟩
        refine ⟨hpa, x :: l1, l2, rfl, ?_⟩
        intro b hb
        rcases List.mem_cons.mp hb with rfl | hb
        · exact hp
        · exact hl1 b hb
      · rintro ⟨hpa, l1, l2, heq, hl1⟩
        cases l1 with
        | nil =>
          simp only [List.nil_append, List.cons.injEq] at heq
          rw [← heq.1] at hpa
          rw [hpa] at hp
          cases hp
        | cons y l1' =>
          simp only [List.cons_append, List.cons.injEq] at heq
          obtain ⟨rfl, rfl⟩ := heq
          exact ⟨hpa, l1', l2, rfl, fun b hb => hl1 b (by simp [hb])⟩

/-- C2: the claim says resolveChainIdOrShortName returns the parsed integer
on numeric strings, in particular 1 on the string "1".  Evaluating the code
shows the numeric branch never fires on a string, because isValidNumber
applies z.number() (a typeof check) to the string, so "1" resolves to none;
the case-insensitive table lookup part of the claim does hold. -/
theorem c2_resolve_numeric_string :
    resolveChainIdOrShortName "1" = none ∧
    resolveChainIdOrShortName "ETH" = some 1 ∧
    resolveChainIdOrShortName "eth" = some 1 ∧
    isValidNumber (JVal.str "1") = false := by
  refine ⟨by decide, by decide, by decide, rfl⟩

/-- C7: chainIdToShortName returns the first short name in declaration order
of CHAIN_SHORT_NAMES whose mapped id is the argument, none when no entry
matches; in particular id 10 yields "oeth", the alias declared before "op". -/
theorem c7_chainIdToShortName_first_match :
    (∀ (cid : Int) (s : String),
      chainIdToShortName cid = some s ↔
        ∃ l1 l2, CHAIN_SHORT_NAMES = l1 ++ (s, cid) :: l2 ∧ ∀ e ∈ l1, e.2 ≠ cid)
    ∧ chainIdToShortName 10 = some "oeth" := by
  constructor
  · intro cid s
    unfold chainIdToShortName
    constructor
    · intro h
      rw [Option.map_eq_some'] at h
      obtain ⟨e, he, hs⟩ := h
      rw [find?_eq_some_split] at he
      obtain ⟨hpe, l1, l2, heq, hl1⟩ := he
      have he2 : e.2 = cid := by simpa using hpe
      have hee : e = (s, cid) := by
        obtain ⟨a, b⟩ := e
        simp only at hs he2
        rw [hs, he2]
      refine ⟨l1, l2, by rw [← hee]; exact heq, ?_⟩
      intro b hb
      have := hl1 b hb
      simpa using this
    · rintro ⟨l1, l2, heq, hl1⟩
      have : CHAIN_SHORT_NAMES.find? (fun e => e.2 == cid) = some (s, cid) := by
        rw [find?_eq_some_split]
        refine ⟨by simp, l1, l2, heq, ?_⟩
        intro b hb
        simpa using hl1 b hb
      rw [this]
      rfl
  · decide

theorem c7_witness : chainIdToShortName 10 = some "oeth" :=
  (c7_chainIdToShortName_first_match.1 10 "oeth").mpr
    ⟨[("eth", 1)], [("op", 10), ("pol", 137), ("gno", 100), ("arb1", 42161), ("base", 8453)],
     by decide, by decide⟩

/-- C4: a non-empty string that fails JSON decoding is replaced by the empty
object, validation proceeds, and the result is the all-defaults canonical
object with empty chainIds and tokenSymbols and no other keys. -/
theorem c4_malformed_json_recovery (env : JsEnv) (s : String)
    (h1 : jsTrim s ≠ "") (h2 : env.jsonParse s = none) :
    preferencesValidate env (JVal.str s) = some defaultPreferences := by
  simp only [preferencesValidate, h1, h2, if_pos, ne_eq, not_false_iff, if_true]
  rfl

def env0 : JsEnv := { jsonParse := fun _ => none, isURL := fun _ => true }

theorem c4_witness :
    (jsTrim "\x7bnot valid" ≠ "" ∧ env0.jsonParse "\x7bnot valid" = none) ∧
    preferencesValidate env0 (JVal.str "\x7bnot valid") = some defaultPreferences :=
  ⟨⟨by decide, rfl⟩, c4_malformed_json_recovery env0 "\x7bnot valid" (by decide) rfl⟩

/-- C10: a string whose trim is empty bypasses JSON decoding entirely (the
result is none whatever jsonParse would return on it) and fails structural
validation, while a non-empty undecodable string recovers to the
all-defaults object. -/
theorem c10_empty_string_fails :
    (∀ (env : JsEnv) (s : String), jsTrim s = "" →
        preferencesValidate env (JVal.str s) = none)
    ∧ (∀ (env : JsEnv) (s : String), jsTrim s ≠ "" → env.jsonParse s = none →
        preferencesValidate env (JVal.str s) = some defaultPreferences) := by
  constructor
  · intro env s h
    simp [preferencesValidate, h]
  · intro env s h1 h2
    simp only [preferencesValidate, h1, h2, ne_eq, not_false_iff, if_true]
    rfl

def envJson : JsEnv := { jsonParse := fun _ => some (JVal.obj []), isURL := fun _ => true }

theorem c10_witness :
    (jsTrim "  " = "" ∧ preferencesValidate envJson (JVal.str "  ") = none) ∧
    (jsTrim "x" ≠ "" ∧ env0.jsonParse "x" = none ∧
      preferencesValidate env0 (JVal.str "x") = some defaultPreferences) :=
  ⟨⟨by decide, c10_empty_string_fails.1 envJson "  " (by decide)⟩,
   ⟨by decide, rfl, c10_empty_string_fails.2 env0 "x" (by decide) rfl⟩⟩

theorem preferencesValidate_obj (env : JsEnv) (fields : List (String × JVal)) :
    preferencesValidate env (JVal.obj fields) = parsePrefObject env fields := rfl

theorem optField_eq_some {α : Type} {fields : List (String × JVal)} {k : String}
    {p : JVal → Option α} {o : Option α} (h : optField fields k p = some o) :
    (jget fields k).bind p = o := by
  unfold optField at h
  cases hg : jget fields k with
  | none =>
    rw [hg] at h
    simp only [Option.some.injEq] at h
    simp [h]
  | some v =>
    rw [hg] at h
    rw [Option.map_eq_some'] at h
    obtain ⟨a, ha, rfl⟩ := h
    simp [ha]

theorem optField_eq_none_iff {α : Type} (fields : List (String × JVal)) (k : String)
    (p : JVal → Option α) :
    optField fields k p = none ↔ ∃ v, jget fields k = some v ∧ p v = none := by
  unfold optField
  cases hg : jget fields k with
  | none => simp
  | some v => simp [Option.map_eq_none']

theorem parsePrefObject_eq_some_iff (env : JsEnv) (fields : List (String × JVal))
    (p : Preferences) :
    parsePrefObject env fields = some p ↔
      ∃ ci ts ch tk ru cu am wh og,
        optField fields "chainIds" chainConfigParse = some ci ∧
        optField fields "tokenSymbols" tokenConfigParse = some ts ∧
        optField fields "chains" chainConfigParse = some ch ∧
        optField fields "tokens" tokenConfigParse = some tk ∧
        optField fields "redirectUrl" (redirectUrlParse env) = some ru ∧
        optField fields "currency" currencyParse = some cu ∧
        optField fields "amount" amountParse = some am ∧
        optField fields "webhooks" (webhooksParse env) = some wh ∧
        optField fields "og" (ogParse env) = some og ∧
        p = { chainIds := (firstSome ch ci).getD [],
              tokenSymbols := (firstSome tk ts).getD [],
              redirectUrl := ru, currency := cu, amount := am,
              webhooks := wh, og := og,
              extra := fields.filter (fun q => !(KNOWN_KEYS.contains q.1)) } := by
  simp only [parsePrefObject, Option.bind_eq_some, Option.some.injEq]
  constructor
  · rintro ⟨ci, h1, ts, h2, ch, h3, tk, h4, ru, h5, cu, h6, am, h7, wh, h8, og, h9, h10⟩
    exact ⟨ci, ts, ch, tk, ru, cu, am, wh, og, h1, h2, h3, h4, h5, h6, h7, h8, h9, h10.symm⟩
  · rintro ⟨ci, ts, ch, tk, ru, cu, am, wh, og, h1, h2, h3, h4, h5, h6, h7, h8, h9, h10⟩
    exact ⟨ci, h1, ts, h2, ch, h3, tk, h4, ru, h5, cu, h6, am, h7, wh, h8, og, h9, h10.symm⟩

/-- C1: on every accepted object input the canonical chainIds is the
validated chains field when present, else the validated chainIds field, else
empty, and symmetrically for tokenSymbols from tokens; the write-only chains
and tokens keys never reach the output, and every unrecognized key passes
through with its value unchanged. -/
theorem c1_merge_and_passthrough (env : JsEnv) (fields : List (String × JVal))
    (p : Preferences) (h : preferencesValidate env (JVal.obj fields) = some p) :
    p.chainIds = (firstSome ((jget fields "chains").bind chainConfigParse)
        ((jget fields "chainIds").bind chainConfigParse)).getD []
    ∧ p.tokenSymbols = (firstSome ((jget fields "tokens").bind tokenConfigParse)
        ((jget fields "tokenSymbols").bind tokenConfigParse)).getD []
    ∧ (∀ v : JVal, ¬ ("chains", v) ∈ p.extra ∧ ¬ ("tokens", v) ∈ p.extra)
    ∧ (∀ (k : String) (v : JVal), KNOWN_KEYS.contains k = false →
        ((k, v) ∈ fields ↔ (k, v) ∈ p.extra)) := by
  rw [preferencesValidate_obj, parsePrefObject_eq_some_iff] at h
  obtain ⟨ci, ts, ch, tk, ru, cu, am, wh, og, h1, h2, h3, h4, h5, h6, h7, h8, h9, rfl⟩ := h
  refine ⟨?_, ?_, ?_, ?_⟩
  · rw [optField_eq_some h3, optField_eq_some h1]
  · rw [optField_eq_some h4, optField_eq_some h2]
  · intro v
    constructor <;> intro hmem <;>
      (have hpred := (List.mem_filter.mp hmem).2; simp [KNOWN_KEYS] at hpred)
  · intro k v hk
    show (k, v) ∈ fields ↔ (k, v) ∈ fields.filter (fun q => !(KNOWN_KEYS.contains q.1))
    rw [List.mem_filter]
    constructor
    · intro hm
      exact ⟨hm, by rw [hk]; rfl⟩
    · intro hm
      exact hm.1

def c1Fields : List (String × JVal) :=
  [("chains", JVal.arr [JVal.num 1]), ("chainIds", JVal.arr [JVal.num 137]),
   ("foo", JVal.str "bar")]

def c1Out : Preferences :=
  { chainIds := [1], tokenSymbols := [], redirectUrl := none, currency := none,
    amount := none, webhooks := none, og := none, extra := [("foo", JVal.str "bar")] }

theorem c1_witness :
    (preferencesValidate env0 (JVal.obj c1Fields) = some c1Out) ∧
    c1Out.chainIds = (firstSome ((jget c1Fields "chains").bind chainConfigParse)
        ((jget c1Fields "chainIds").bind chainConfigParse)).getD [] :=
  ⟨rfl, (c1_merge_and_passthrough env0 c1Fields c1Out rfl).1⟩

theorem keepSupportedId_eq_some {o : Option Int} {id : Int}
    (h : keepSupportedId o = some id) : id ≠ 0 ∧ supportedChain id = true := by
  cases o with
  | none => cases h
  | some j =>
    simp only [keepSupportedId] at h
    by_cases hc : (j != 0 && supportedChain j) = true
    · rw [if_pos hc] at h
      obtain rfl := Option.some.inj h
      rw [Bool.and_eq_true] at hc
      exact ⟨by simpa using hc.1, hc.2⟩
    · rw [if_neg hc] at h
      cases h

theorem chainArrayParse_mem {xs : List JVal} {l : List Int}
    (h : chainArrayParse xs = some l) :
    ∀ id ∈ l, id ≠ 0 ∧ supportedChain id = true := by
  unfold chainArrayParse at h
  rw [Option.map_eq_some'] at h
  obtain ⟨elems, _, rfl⟩ := h
  intro id hid
  rw [List.mem_filterMap] at hid
  obtain ⟨o, _, hkeep⟩ := hid
  exact keepSupportedId_eq_some hkeep

theorem chainConfigParse_mem {v : JVal} {l : List Int}
    (h : chainConfigParse v = some l) :
    ∀ id ∈ l, id ≠ 0 ∧ supportedChain id = true := by
  cases v with
  | arr xs => exact chainArrayParse_mem h
  | str s => exact chainArrayParse_mem h
  | null => cases h
  | bool b => cases h
  | num n => cases h
  | obj fs => cases h

theorem parseAllStrOrNum_append :
    ∀ xs ys : List JVal, parseAllStrOrNum (xs ++ ys) =
      (parseAllStrOrNum xs).bind
        (fun a => (parseAllStrOrNum ys).map (fun b => a ++ b)) := by
  intro xs
  induction xs with
  | nil =>
    intro ys
    cases hy : parseAllStrOrNum ys <;> simp [parseAllStrOrNum, hy]
  | cons x rest ih =>
    intro ys
    cases x with
    | str s =>
      have hl : parseAllStrOrNum (JVal.str s :: (rest ++ ys)) =
          (parseAllStrOrNum (rest ++ ys)).map (fun l => Sum.inl s :: l) := rfl
      have hr2 : parseAllStrOrNum (JVal.str s :: rest) =
          (parseAllStrOrNum rest).map (fun l => Sum.inl s :: l) := rfl
      rw [List.cons_append, hl, ih ys, hr2]
      cases hr : parseAllStrOrNum rest <;> cases hy : parseAllStrOrNum ys <;> simp
    | num n =>
      have hl : parseAllStrOrNum (JVal.num n :: (rest ++ ys)) =
          (parseAllStrOrNum (rest ++ ys)).map (fun l => Sum.inr n :: l) := rfl
      have hr2 : parseAllStrOrNum (JVal.num n :: rest) =
          (parseAllStrOrNum rest).map (fun l => Sum.inr n :: l) := rfl
      rw [List.cons_append, hl, ih ys, hr2]
      cases hr : parseAllStrOrNum rest <;> cases hy : parseAllStrOrNum ys <;> simp
    | null => simp [parseAllStrOrNum]
    | bool b => simp [parseAllStrOrNum]
    | arr a => simp [parseAllStrOrNum]
    | obj o => simp [parseAllStrOrNum]

theorem chainTransform_drop {e : Sum String Int}
    (hdrop : keepSupportedId (resolveChainElem e) = none) (a b : List (Sum String Int)) :
    ((a ++ e :: b).map resolveChainElem).filterMap keepSupportedId =
      ((a ++ b).map resolveChainElem).filterMap keepSupportedId := by
  simp [List.map_append, List.filterMap_append, List.filterMap_cons, hdrop]

/-- C5: every chain id surviving the ChainConfigSchema transform is nonzero
and drawn from the supported registry, and a dropped element is dropped
silently: deleting it from the input array leaves the parse result of the
surrounding elements unchanged, so order and duplicates of the survivors are
preserved and no error is produced. -/
theorem c5_chain_filter_invariant :
    (∀ (v : JVal) (l : List Int), chainConfigParse v = some l →
        ∀ id ∈ l, id ≠ 0 ∧ supportedChain id = true)
    ∧ (∀ (bad : JVal), badChainElem bad → ∀ (xs ys : List JVal),
        chainConfigParse (JVal.arr (xs ++ bad :: ys)) =
          chainConfigParse (JVal.arr (xs ++ ys))) := by
  constructor
  · intro v l h
    exact chainConfigParse_mem h
  · intro bad hb xs ys
    obtain ⟨e, hshape, hdrop⟩ : ∃ e : Sum String Int,
        ((∃ s, bad = JVal.str s ∧ e = Sum.inl s) ∨
         (∃ n, bad = JVal.num n ∧ e = Sum.inr n)) ∧
        keepSupportedId (resolveChainElem e) = none := by
      rcases hb with ⟨s, rfl, hres⟩ | ⟨n, rfl, hn⟩
      · refine ⟨Sum.inl s, Or.inl ⟨s, rfl, rfl⟩, ?_⟩
        rcases hres with h | h | ⟨id, h, hsup⟩
        · simp [resolveChainElem, keepSupportedId, h]
        · simp [resolveChainElem, keepSupportedId, h]
        · simp [resolveChainElem, keepSupportedId, h, hsup]
      · refine ⟨Sum.inr n, Or.inr ⟨n, rfl, rfl⟩, ?_⟩
        rcases hn with rfl | h
        · simp [resolveChainElem, keepSupportedId]
        · simp [resolveChainElem, keepSupportedId, h]
    show chainArrayParse (xs ++ bad :: ys) = chainArrayParse (xs ++ ys)
    have hbadparse : parseAllStrOrNum (bad :: ys) =
        (parseAllStrOrNum ys).map (fun b => e :: b) := by
      rcases hshape with ⟨s, rfl, rfl⟩ | ⟨n, rfl, rfl⟩ <;> rfl
    unfold chainArrayParse
    rw [parseAllStrOrNum_append, parseAllStrOrNum_append, hbadparse]
    cases hx : parseAllStrOrNum xs with
    | none => rfl
    | some a =>
      cases hy : parseAllStrOrNum ys with
      | none => rfl
      | some b =>
        simp only [Option.some_bind, Option.map_some']
        exact congrArg some (chainTransform_drop hdrop a b)

def c5Bad : JVal := JVal.num 999999

theorem c5_witness :
    (chainConfigParse (JVal.arr [JVal.num 1, JVal.num 999999]) = some [1] ∧
      (1 : Int) ≠ 0 ∧ supportedChain 1 = true) ∧
    (badChainElem c5Bad ∧
      chainConfigParse (JVal.arr ([JVal.num 1] ++ c5Bad :: [])) =
        chainConfigParse (JVal.arr ([JVal.num 1] ++ []))) :=
  ⟨⟨rfl, c5_chain_filter_invariant.1 (JVal.arr [JVal.num 1, JVal.num 999999]) [1] rfl 1
      (by decide)⟩,
   ⟨Or.inr ⟨999999, rfl, Or.inr (by decide)⟩,
    c5_chain_filter_invariant.2 c5Bad (Or.inr ⟨999999, rfl, Or.inr (by decide)⟩)
      [JVal.num 1] []⟩⟩

theorem option_eq_none_iff_isSome {α : Type} (o : Option α) :
    o = none ↔ o.isSome = false := by
  cases o <;> simp

theorem parseAllStrings_isSome (xs : List JVal) :
    (parseAllStrings xs).isSome = xs.all isStrB := by
  induction xs with
  | nil => rfl
  | cons x rest ih =>
    cases x with
    | str s =>
      show ((parseAllStrings rest).map (fun l => s :: l)).isSome = (true && rest.all isStrB)
      rw [Bool.true_and, ← ih]
      cases parseAllStrings rest <;> rfl
    | null => rfl
    | bool b => rfl
    | num n => rfl
    | arr a => rfl
    | obj o => rfl

theorem parseAllStrOrNum_isSome (xs : List JVal) :
    (parseAllStrOrNum xs).isSome = xs.all isStrOrNumB := by
  induction xs with
  | nil => rfl
  | cons x rest ih =>
    cases x with
    | str s =>
      show ((parseAllStrOrNum rest).map (fun l => Sum.inl s :: l)).isSome
          = (true && rest.all isStrOrNumB)
      rw [Bool.true_and, ← ih]
      cases parseAllStrOrNum rest <;> rfl
    | num n =>
      show ((parseAllStrOrNum rest).map (fun l => Sum.inr n :: l)).isSome
          = (true && rest.all isStrOrNumB)
      rw [Bool.true_and, ← ih]
      cases parseAllStrOrNum rest <;> rfl
    | null => rfl
    | bool b => rfl
    | arr a => rfl
    | obj o => rfl

theorem chainItemOfString_shape (items : List String) :
    (items.map chainItemOfString).all isStrOrNumB = true := by
  induction items with
  | nil => rfl
  | cons it rest ih =>
    show (isStrOrNumB (chainItemOfString it) && (rest.map chainItemOfString).all isStrOrNumB)
        = true
    rw [ih, Bool.and_true]
    unfold chainItemOfString
    cases jsStringToNumber it <;> rfl

theorem chainConfigParse_eq_none_iff (v : JVal) :
    chainConfigParse v = none ↔ chainShapeOk v = false := by
  cases v with
  | arr xs =>
    show chainArrayParse xs = none ↔ xs.all isStrOrNumB = false
    rw [option_eq_none_iff_isSome]
    unfold chainArrayParse
    rw [Option.isSome_map', parseAllStrOrNum_isSome]
  | str s =>
    show chainArrayParse ((commaStringToArray s).map chainItemOfString) = none ↔ true = false
    rw [option_eq_none_iff_isSome]
    unfold chainArrayParse
    rw [Option.isSome_map', parseAllStrOrNum_isSome, chainItemOfString_shape]
  | null => simp [chainConfigParse, chainShapeOk]
  | bool b => simp [chainConfigParse, chainShapeOk]
  | num n => simp [chainConfigParse, chainShapeOk]
  | obj fs => simp [chainConfigParse, chainShapeOk]

theorem tokenConfigParse_eq_none_iff (v : JVal) :
    tokenConfigParse v = none ↔ tokenShapeOk v = false := by
  cases v with
  | arr xs =>
    show parseAllStrings xs = none ↔ xs.all isStrB = false
    rw [option_eq_none_iff_isSome, parseAllStrings_isSome]
  | str s =>
    show parseAllStrings ((commaStringToArray s).map JVal.str) = none ↔ true = false
    rw [option_eq_none_iff_isSome, parseAllStrings_isSome]
    have : ((commaStringToArray s).map JVal.str).all isStrB = true := by
      induction commaStringToArray s with
      | nil => rfl
      | cons a rest ih =>
        show (isStrB (JVal.str a) && (rest.map JVal.str).all isStrB) = true
        rw [ih]
        rfl
    rw [this]
  | null => simp [tokenConfigParse, tokenShapeOk]
  | bool b => simp [tokenConfigParse, tokenShapeOk]
  | num n => simp [tokenConfigParse, tokenShapeOk]
  | obj fs => simp [tokenConfigParse, tokenShapeOk]

theorem redirectUrlParse_eq_none_iff (env : JsEnv) (v : JVal) :
    redirectUrlParse env v = none ↔ redirectOkB env v = false := by
  cases v with
  | str s =>
    show (if env.isURL s = true then some s else none) = none ↔ env.isURL s = false
    by_cases h : env.isURL s = true
    · rw [if_pos h, h]
      simp
    · rw [if_neg h]
      simp [Bool.not_eq_true] at h
      simp [h]
  | null => simp [redirectUrlParse, redirectOkB]
  | bool b => simp [redirectUrlParse, redirectOkB]
  | num n => simp [redirectUrlParse, redirectOkB]
  | arr a => simp [redirectUrlParse, redirectOkB]
  | obj fs => simp [redirectUrlParse, redirectOkB]

theorem currencyParse_eq_none_iff (v : JVal) :
    currencyParse v = none ↔ currencyOkB v = false := by
  cases v <;> simp [currencyParse, currencyOkB]

theorem amountParse_eq_none_iff (v : JVal) :
    amountParse v = none ↔ amountOkB v = false := by
  cases v with
  | num n =>
    show (if 0 ≤ n then some n else none) = none ↔ decide (0 ≤ n) = false
    by_cases h : 0 ≤ n
    · rw [if_pos h]
      simp [h]
    · rw [if_neg h]
      simp [h]
  | null => simp [amountParse, amountOkB]
  | bool b => simp [amountParse, amountOkB]
  | str s => simp [amountParse, amountOkB]
  | arr a => simp [amountParse, amountOkB]
  | obj fs => simp [amountParse, amountOkB]

theorem ogParse_obj_eval (env : JsEnv) (fs : List (String × JVal)) :
    ogParse env (JVal.obj fs)
      = (match jget fs "baseUrl" with
         | none => some none
         | some (JVal.str s) => if env.isURL s = true then some (some s) else none
         | some _ => none) := rfl

theorem ogOkB_obj_eval (env : JsEnv) (fs : List (String × JVal)) :
    ogOkB env (JVal.obj fs)
      = (match jget fs "baseUrl" with
         | none => true
         | some (JVal.str s) => env.isURL s
         | some _ => false) := rfl

theorem ogParse_eq_none_iff (env : JsEnv) (v : JVal) :
    ogParse env v = none ↔ ogOkB env v = false := by
  cases v with
  | obj fs =>
    rw [ogParse_obj_eval, ogOkB_obj_eval]
    cases hb : jget fs "baseUrl" with
    | none => simp
    | some b =>
      cases b with
      | str s =>
        show (if env.isURL s = true then some (some s) else none) = none
            ↔ env.isURL s = false
        by_cases h : env.isURL s = true
        · rw [if_pos h, h]
          simp
        · rw [if_neg h]
          rw [Bool.not_eq_true] at h
          rw [h]
          simp
      | null => simp
      | bool bb => simp
      | num n => simp
      | arr a => simp
      | obj o => simp
  | null => simp [ogParse, ogOkB]
  | bool b => simp [ogParse, ogOkB]
  | num n => simp [ogParse, ogOkB]
  | str s => simp [ogParse, ogOkB]
  | arr a => simp [ogParse, ogOkB]

theorem parseWebhookList_isSome (env : JsEnv) (xs : List JVal) :
    (parseWebhookList env xs).isSome = xs.all (webhookOkB env) := by
  induction xs with
  | nil => rfl
  | cons x rest ih =>
    cases x with
    | str s =>
      by_cases hc : (env.isURL s && jsStartsWith s "https://") = true
      · have hi : webhookItemParse env (JVal.str s) = some s := by
          show (if (env.isURL s && jsStartsWith s "https://") = true
                then some s else none) = some s
          rw [if_pos hc]
        have hstep : parseWebhookList env (JVal.str s :: rest)
            = (parseWebhookList env rest).map (fun l => s :: l) := by
          show (match webhookItemParse env (JVal.str s) with
                | some w => (parseWebhookList env rest).map (fun l => w :: l)
                | none => none)
              = (parseWebhookList env rest).map (fun l => s :: l)
          rw [hi]
        have e2 : webhookOkB env (JVal.str s) = true := hc
        rw [hstep, List.all_cons, e2, Bool.true_and, ← ih]
        cases parseWebhookList env rest <;> rfl
      · have hi : webhookItemParse env (JVal.str s) = none := by
          show (if (env.isURL s && jsStartsWith s "https://") = true
                then some s else none) = none
          rw [if_neg hc]
        have hstep : parseWebhookList env (JVal.str s :: rest) = none := by
          show (match webhookItemParse env (JVal.str s) with
                | some w => (parseWebhookList env rest).map (fun l => w :: l)
                | none => none) = none
          rw [hi]
        have e2 : webhookOkB env (JVal.str s) = false := by
          rw [Bool.not_eq_true] at hc
          exact hc
        rw [hstep, List.all_cons, e2, Bool.false_and]
        rfl
    | null => rfl
    | bool b => rfl
    | num n => rfl
    | arr a => rfl
    | obj o => rfl

theorem parseWebhookList_length (env : JsEnv) :
    ∀ {xs : List JVal} {l : List String},
      parseWebhookList env xs = some l → l.length = xs.length := by
  intro xs
  induction xs with
  | nil =>
    intro l h
    obtain rfl := Option.some.inj h
    rfl
  | cons x rest ih =>
    intro l h
    show l.length = rest.length + 1
    have h2 : (match webhookItemParse env x with
        | some w => (parseWebhookList env rest).map (fun l2 => w :: l2)
        | none => none) = some l := h
    cases hi : webhookItemParse env x with
    | none => rw [hi] at h2; cases h2
    | some w =>
      rw [hi] at h2
      rw [Option.map_eq_some'] at h2
      obtain ⟨l2, hl2, rfl⟩ := h2
      simp [ih hl2]

theorem webhooksParse_eq_none_iff (env : JsEnv) (v : JVal) :
    webhooksParse env v = none ↔ webhooksOkB env v = false := by
  cases v with
  | arr xs =>
    cases hp : parseWebhookList env xs with
    | none =>
      have hall : xs.all (webhookOkB env) = false := by
        have h2 := parseWebhookList_isSome env xs
        rw [hp] at h2
        exact h2.symm
      have e1 : webhooksParse env (JVal.arr xs) = none := by
        show (match parseWebhookList env xs with
              | some l => if l.length ≤ 15 then some l else none
              | none => none) = none
        rw [hp]
      have e2 : webhooksOkB env (JVal.arr xs) = false := by
        show (decide (xs.length ≤ 15) && xs.all (webhookOkB env)) = false
        rw [hall, Bool.and_false]
      rw [e1, e2]
      simp
    | some l =>
      have hall : xs.all (webhookOkB env) = true := by
        have h2 := parseWebhookList_isSome env xs
        rw [hp] at h2
        exact h2.symm
      have hlen : l.length = xs.length := parseWebhookList_length env hp
      have e1 : webhooksParse env (JVal.arr xs)
          = if l.length ≤ 15 then some l else none := by
        show (match parseWebhookList env xs with
              | some l2 => if l2.length ≤ 15 then some l2 else none
              | none => none) = if l.length ≤ 15 then some l else none
        rw [hp]
      by_cases hle : xs.length ≤ 15
      · have e3 : webhooksParse env (JVal.arr xs) = some l := by
          rw [e1, if_pos (by rw [hlen]; exact hle)]
        have e2 : webhooksOkB env (JVal.arr xs) = true := by
          show (decide (xs.length ≤ 15) && xs.all (webhookOkB env)) = true
          rw [hall, Bool.and_true, decide_eq_true hle]
        rw [e3, e2]
        simp
      · have e3 : webhooksParse env (JVal.arr xs) = none := by
          rw [e1, if_neg (by rw [hlen]; exact hle)]
        have e2 : webhooksOkB env (JVal.arr xs) = false := by
          show (decide (xs.length ≤ 15) && xs.all (webhookOkB env)) = false
          rw [hall, Bool.and_true, decide_eq_false hle]
        rw [e3, e2]
        simp
  | null => simp [webhooksParse, webhooksOkB]
  | bool b => simp [webhooksParse, webhooksOkB]
  | num n => simp [webhooksParse, webhooksOkB]
  | str s => simp [webhooksParse, webhooksOkB]
  | obj fs => simp [webhooksParse, webhooksOkB]

theorem fieldOk_chainIds (env : JsEnv) (v : JVal) :
    fieldOk env "chainIds" v = chainShapeOk v := rfl

theorem fieldOk_chains (env : JsEnv) (v : JVal) :
    fieldOk env "chains" v = chainShapeOk v := rfl

theorem fieldOk_tokenSymbols (env : JsEnv) (v : JVal) :
    fieldOk env "tokenSymbols" v = tokenShapeOk v := rfl

theorem fieldOk_tokens (env : JsEnv) (v : JVal) :
    fieldOk env "tokens" v = tokenShapeOk v := rfl

theorem fieldOk_redirectUrl (env : JsEnv) (v : JVal) :
    fieldOk env "redirectUrl" v = redirectOkB env v := rfl

theorem fieldOk_currency (env : JsEnv) (v : JVal) :
    fieldOk env "currency" v = currencyOkB v := rfl

theorem fieldOk_amount (env : JsEnv) (v : JVal) :
    fieldOk env "amount" v = amountOkB v := rfl

theorem fieldOk_webhooks (env : JsEnv) (v : JVal) :
    fieldOk env "webhooks" v = webhooksOkB env v := rfl

theorem fieldOk_og (env : JsEnv) (v : JVal) :
    fieldOk env "og" v = ogOkB env v := rfl

theorem fieldOk_unknown (env : JsEnv) (k : String) (v : JVal)
    (h1 : k ≠ "chainIds") (h2 : k ≠ "tokenSymbols") (h3 : k ≠ "chains")
    (h4 : k ≠ "tokens") (h5 : k ≠ "redirectUrl") (h6 : k ≠ "currency")
    (h7 : k ≠ "amount") (h8 : k ≠ "webhooks") (h9 : k ≠ "og") :
    fieldOk env k v = true := by
  unfold fieldOk
  rw [if_neg (by simp [h1, h3]), if_neg (by simp [h2, h4]), if_neg h5,
    if_neg h6, if_neg h7, if_neg h8, if_neg h9]

theorem parsePrefObject_eq_none_iff (env : JsEnv) (fields : List (String × JVal)) :
    parsePrefObject env fields = none ↔
      optField fields "chainIds" chainConfigParse = none ∨
      optField fields "tokenSymbols" tokenConfigParse = none ∨
      optField fields "chains" chainConfigParse = none ∨
      optField fields "tokens" tokenConfigParse = none ∨
      optField fields "redirectUrl" (redirectUrlParse env) = none ∨
      optField fields "currency" currencyParse = none ∨
      optField fields "amount" amountParse = none ∨
      optField fields "webhooks" (webhooksParse env) = none ∨
      optField fields "og" (ogParse env) = none := by
  unfold parsePrefObject
  cases h1 : optField fields "chainIds" chainConfigParse with
  | none => simp
  | some ci =>
    cases h2 : optField fields "tokenSymbols" tokenConfigParse with
    | none => simp
    | some ts =>
      cases h3 : optField fields "chains" chainConfigParse with
      | none => simp
      | some ch =>
        cases h4 : optField fields "tokens" tokenConfigParse with
        | none => simp
        | some tk =>
          cases h5 : optField fields "redirectUrl" (redirectUrlParse env) with
          | none => simp
          | some ru =>
            cases h6 : optField fields "currency" currencyParse with
            | none => simp
            | some cu =>
              cases h7 : optField fields "amount" amountParse with
              | none => simp
              | some am =>
                cases h8 : optField fields "webhooks" (webhooksParse env) with
                | none => simp
                | some wh =>
                  cases h9 : optField fields "og" (ogParse env) with
                  | none => simp
                  | some og => simp

theorem parseWebhookList_of_ok (env : JsEnv) :
    ∀ (ws : List String),
      (∀ u ∈ ws, env.isURL u = true ∧ jsStartsWith u "https://" = true) →
      parseWebhookList env (ws.map JVal.str) = some ws := by
  intro ws
  induction ws with
  | nil => intro _; rfl
  | cons u rest ih =>
    intro h
    have hu := h u (by simp)
    have hi : webhookItemParse env (JVal.str u) = some u := by
      show (if (env.isURL u && jsStartsWith u "https://") = true
            then some u else none) = some u
      rw [if_pos (by rw [hu.1, hu.2]; rfl)]
    show (match webhookItemParse env (JVal.str u) with
          | some w => (parseWebhookList env (rest.map JVal.str)).map (fun l => w :: l)
          | none => none) = some (u :: rest)
    rw [hi, ih (fun x hx => h x (by simp [hx]))]
    rfl

theorem webhooksParse_of_ok (env : JsEnv) (ws : List String)
    (hlen : ws.length ≤ 15)
    (hok : ∀ u ∈ ws, env.isURL u = true ∧ jsStartsWith u "https://" = true) :
    webhooksParse env (JVal.arr (ws.map JVal.str)) = some ws := by
  show (match parseWebhookList env (ws.map JVal.str) with
        | some l => if l.length ≤ 15 then some l else none
        | none => none) = some ws
  rw [parseWebhookList_of_ok env ws hok]
  show (if ws.length ≤ 15 then some ws else none) = some ws
  rw [if_pos hlen]

/-- C3: validation of an object input fails exactly when some recognized
field is present and violates its contract: a webhooks entry that is not a
valid https URL, more than 15 webhooks, a redirectUrl that is not a valid
URL of any scheme, a negative amount, or a value whose type does not match
the declared shape; unknown keys can never cause a failure.  In particular
15 valid https webhooks validate, 16 fail, and a redirectUrl of any scheme
that is a valid URL (http included) is accepted. -/
theorem c3_validation_failure_conditions :
    (∀ (env : JsEnv) (fields : List (String × JVal)),
      preferencesValidate env (JVal.obj fields) = none ↔
        ∃ k v, jget fields k = some v ∧ fieldOk env k v = false)
    ∧ (∀ (env : JsEnv) (ws : List String), ws.length = 15 →
        (∀ u ∈ ws, env.isURL u = true ∧ jsStartsWith u "https://" = true) →
        (preferencesValidate env
          (JVal.obj [("webhooks", JVal.arr (ws.map JVal.str))])).isSome = true)
    ∧ (∀ (env : JsEnv) (ws : List String), ws.length = 16 →
        preferencesValidate env
          (JVal.obj [("webhooks", JVal.arr (ws.map JVal.str))]) = none)
    ∧ (∀ (env : JsEnv) (s : String), env.isURL s = true →
        (preferencesValidate env
          (JVal.obj [("redirectUrl", JVal.str s)])).isSome = true)
    ∧ (∀ (env : JsEnv) (n : Int), n < 0 →
        preferencesValidate env (JVal.obj [("amount", JVal.num n)]) = none) := by
  refine ⟨?_, ?_, ?_, ?_, ?_⟩
  · intro env fields
    rw [preferencesValidate_obj, parsePrefObject_eq_none_iff]
    constructor
    · rintro (h | h | h | h | h | h | h | h | h) <;>
        rw [optField_eq_none_iff] at h <;>
        obtain ⟨v, hv, hp⟩ := h
      · exact ⟨"chainIds", v, hv, by
          rw [fieldOk_chainIds]; exact (chainConfigParse_eq_none_iff v).mp hp⟩
      · exact ⟨"tokenSymbols", v, hv, by
          rw [fieldOk_tokenSymbols]; exact (tokenConfigParse_eq_none_iff v).mp hp⟩
      · exact ⟨"chains", v, hv, by
          rw [fieldOk_chains]; exact (chainConfigParse_eq_none_iff v).mp hp⟩
      · exact ⟨"tokens", v, hv, by
          rw [fieldOk_tokens]; exact (tokenConfigParse_eq_none_iff v).mp hp⟩
      · exact ⟨"redirectUrl", v, hv, by
          rw [fieldOk_redirectUrl]; exact (redirectUrlParse_eq_none_iff env v).mp hp⟩
      · exact ⟨"currency", v, hv, by
          rw [fieldOk_currency]; exact (currencyParse_eq_none_iff v).mp hp⟩
      · exact ⟨"amount", v, hv, by
          rw [fieldOk_amount]; exact (amountParse_eq_none_iff v).mp hp⟩
      · exact ⟨"webhooks", v, hv, by
          rw [fieldOk_webhooks]; exact (webhooksParse_eq_none_iff env v).mp hp⟩
      · exact ⟨"og", v, hv, by
          rw [fieldOk_og]; exact (ogParse_eq_none_iff env v).mp hp⟩
    · rintro ⟨k, v, hv, hbad⟩
      by_cases e1 : k = "chainIds"
      · subst e1
        refine Or.inl ?_
        rw [optField_eq_none_iff]
        exact ⟨v, hv, (chainConfigParse_eq_none_iff v).mpr
          (by rw [← fieldOk_chainIds env v]; exact hbad)⟩
      by_cases e2 : k = "tokenSymbols"
      · subst e2
        refine Or.inr (Or.inl ?_)
        rw [optField_eq_none_iff]
        exact ⟨v, hv, (tokenConfigParse_eq_none_iff v).mpr
          (by rw [← fieldOk_tokenSymbols env v]; exact hbad)⟩
      by_cases e3 : k = "chains"
      · subst e3
        refine Or.inr (Or.inr (Or.inl ?_))
        rw [optField_eq_none_iff]
        exact ⟨v, hv, (chainConfigParse_eq_none_iff v).mpr
          (by rw [← fieldOk_chains env v]; exact hbad)⟩
      by_cases e4 : k = "tokens"
      · subst e4
        refine Or.inr (Or.inr (Or.inr (Or.inl ?_)))
        rw [optField_eq_none_iff]
        exact ⟨v, hv, (tokenConfigParse_eq_none_iff v).mpr
          (by rw [← fieldOk_tokens env v]; exact hbad)⟩
      by_cases e5 : k = "redirectUrl"
      · subst e5
        refine Or.inr (Or.inr (Or.inr (Or.inr (Or.inl ?_))))
        rw [optField_eq_none_iff]
        exact ⟨v, hv, (redirectUrlParse_eq_none_iff env v).mpr
          (by rw [← fieldOk_redirectUrl env v]; exact hbad)⟩
      by_cases e6 : k = "currency"
      · subst e6
        refine Or.inr (Or.inr (Or.inr (Or.inr (Or.inr (Or.inl ?_)))))
        rw [optField_eq_none_iff]
        exact ⟨v, hv, (currencyParse_eq_none_iff v).mpr
          (by rw [← fieldOk_currency env v]; exact hbad)⟩
      by_cases e7 : k = "amount"
      · subst e7
        refine Or.inr (Or.inr (Or.inr (Or.inr (Or.inr (Or.inr (Or.inl ?_))))))
        rw [optField_eq_none_iff]
        exact ⟨v, hv, (amountParse_eq_none_iff v).mpr
          (by rw [← fieldOk_amount env v]; exact hbad)⟩
      by_cases e8 : k = "webhooks"
      · subst e8
        refine Or.inr (Or.inr (Or.inr (Or.inr (Or.inr (Or.inr (Or.inr (Or.inl ?_)))))))
        rw [optField_eq_none_iff]
        exact ⟨v, hv, (webhooksParse_eq_none_iff env v).mpr
          (by rw [← fieldOk_webhooks env v]; exact hbad)⟩
      by_cases e9 : k = "og"
      · subst e9
        refine Or.inr (Or.inr (Or.inr (Or.inr (Or.inr (Or.inr (Or.inr (Or.inr ?_)))))))
        rw [optField_eq_none_iff]
        exact ⟨v, hv, (ogParse_eq_none_iff env v).mpr
          (by rw [← fieldOk_og env v]; exact hbad)⟩
      exfalso
      rw [fieldOk_unknown env k v e1 e2 e3 e4 e5 e6 e7 e8 e9] at hbad
      cases hbad
  · intro env ws h15 hok
    have hw := webhooksParse_of_ok env ws (by rw [h15]) hok
    have hval : parsePrefObject env [("webhooks", JVal.arr (ws.map JVal.str))] = some
        { chainIds := [], tokenSymbols := [], redirectUrl := none, currency := none,
          amount := none, webhooks := some ws, og := none, extra := [] } := by
      rw [parsePrefObject_eq_some_iff]
      refine ⟨none, none, none, none, none, none, none, some ws, none,
        rfl, rfl, rfl, rfl, rfl, rfl, rfl, ?_, rfl, ?_⟩
      · show (webhooksParse env (JVal.arr (ws.map JVal.str))).map some = some (some ws)
        rw [hw]
        rfl
      · rfl
    rw [preferencesValidate_obj, hval]
    rfl
  · intro env ws h16
    rw [preferencesValidate_obj, parsePrefObject_eq_none_iff]
    refine Or.inr (Or.inr (Or.inr (Or.inr (Or.inr (Or.inr (Or.inr (Or.inl ?_)))))))
    rw [optField_eq_none_iff]
    refine ⟨JVal.arr (ws.map JVal.str), rfl, ?_⟩
    show (match parseWebhookList env (ws.map JVal.str) with
          | some l => if l.length ≤ 15 then some l else none
          | none => none) = none
    cases hp : parseWebhookList env (ws.map JVal.str) with
    | none => rfl
    | some l =>
      have hlen2 : l.length = 16 := by
        rw [parseWebhookList_length env hp, List.length_map, h16]
      show (if l.length ≤ 15 then some l else none) = none
      rw [if_neg (by rw [hlen2]; decide)]
  · intro env s hurl
    have hval : parsePrefObject env [("redirectUrl", JVal.str s)] = some
        { chainIds := [], tokenSymbols := [], redirectUrl := some s, currency := none,
          amount := none, webhooks := none, og := none, extra := [] } := by
      rw [parsePrefObject_eq_some_iff]
      refine ⟨none, none, none, none, some s, none, none, none, none,
        rfl, rfl, rfl, rfl, ?_, rfl, rfl, rfl, rfl, rfl⟩
      show ((if env.isURL s = true then some s else none).map some) = some (some s)
      rw [if_pos hurl]
      rfl
    rw [preferencesValidate_obj, hval]
    rfl
  · intro env n hneg
    rw [preferencesValidate_obj, parsePrefObject_eq_none_iff]
    refine Or.inr (Or.inr (Or.inr (Or.inr (Or.inr (Or.inr (Or.inl ?_))))))
    rw [optField_eq_none_iff]
    refine ⟨JVal.num n, rfl, ?_⟩
    show (if 0 ≤ n then some n else none) = none
    rw [if_neg (by exact not_le.mpr hneg)]

def wURL : String := "https://example.com/hook"

theorem c3_witness :
    ((List.replicate 15 wURL).length = 15 ∧
      (∀ u ∈ List.replicate 15 wURL, env0.isURL u = true ∧ jsStartsWith u "https://" = true) ∧
      (preferencesValidate env0 (JVal.obj
        [("webhooks", JVal.arr ((List.replicate 15 wURL).map JVal.str))])).isSome = true) ∧
    ((List.replicate 16 wURL).length = 16 ∧
      preferencesValidate env0 (JVal.obj
        [("webhooks", JVal.arr ((List.replicate 16 wURL).map JVal.str))]) = none) ∧
    (env0.isURL "http://example.com/redirect" = true ∧
      (preferencesValidate env0 (JVal.obj
        [("redirectUrl", JVal.str "http://example.com/redirect")])).isSome = true) ∧
    ((-5 : Int) < 0 ∧
      preferencesValidate env0 (JVal.obj [("amount", JVal.num (-5))]) = none) :=
  ⟨⟨by decide, by decide,
    c3_validation_failure_conditions.2.1 env0 (List.replicate 15 wURL) (by decide) (by decide)⟩,
   ⟨by decide,
    c3_validation_failure_conditions.2.2.1 env0 (List.replicate 16 wURL) (by decide)⟩,
   ⟨rfl,
    c3_validation_failure_conditions.2.2.2.1 env0 "http://example.com/redirect" rfl⟩,
   ⟨by decide,
    c3_validation_failure_conditions.2.2.2.2 env0 (-5) (by decide)⟩⟩

theorem find?_eq_head?_filter {α : Type} (p : α → Bool) :
    ∀ l : List α, l.find? p = (l.filter p).head? := by
  intro l
  induction l with
  | nil => rfl
  | cons x t ih =>
    cases hp : p x with
    | true => rw [List.find?_cons_of_pos _ hp, List.filter_cons_of_pos hp]; rfl
    | false =>
      rw [List.find?_cons_of_neg _ (by simp [hp]), List.filter_cons_of_neg (by simp [hp])]
      exact ih

theorem jget_eq_head_filterKey (l : List (String × JVal)) (k : String) :
    jget l k = ((filterKey l k).head?).map (fun p => p.2) := by
  unfold jget filterKey
  rw [find?_eq_head?_filter]

theorem filterKey_cons_self {α : Type} (k : String) (v : α) (t : List (String × α)) :
    filterKey ((k, v) :: t) k = (k, v) :: filterKey t k := by
  unfold filterKey
  rw [List.filter_cons_of_pos (by simp)]

theorem filterKey_cons_ne {α : Type} {k1 k : String} (h : (k1 == k) = false) (v : α)
    (t : List (String × α)) :
    filterKey ((k1, v) :: t) k = filterKey t k := by
  unfold filterKey
  rw [List.filter_cons_of_neg (by simp [h])]

theorem filterKey_map_replace (l : List (String × Option JVal)) (k' k : String)
    (v : Option JVal) (h : (k' == k) = false) :
    filterKey (l.map (fun p => if p.1 == k' then (k', v) else p)) k = filterKey l k := by
  induction l with
  | nil => rfl
  | cons x t ih =>
    obtain ⟨k1, v1⟩ := x
    show filterKey ((if (k1 == k') = true then (k', v) else (k1, v1)) :: t.map _) k
        = filterKey ((k1, v1) :: t) k
    by_cases hx : (k1 == k') = true
    · rw [if_pos hx]
      have hk1 : (k1 == k) = false := by
        have he : k1 = k' := eq_of_beq hx
        rw [he]
        exact h
      rw [filterKey_cons_ne h, filterKey_cons_ne hk1]
      exact ih
    · rw [if_neg hx]
      cases hk : (k1 == k) with
      | true =>
        have he : k1 = k := eq_of_beq hk
        subst he
        rw [filterKey_cons_self, filterKey_cons_self]
        rw [ih]
      | false =>
        rw [filterKey_cons_ne hk, filterKey_cons_ne hk]
        exact ih

theorem filterKey_map_self (l : List (String × Option JVal)) (k : String) (v : Option JVal) :
    filterKey (l.map (fun p => if p.1 == k then (k, v) else p)) k
      = (filterKey l k).map (fun _ => (k, v)) := by
  induction l with
  | nil => rfl
  | cons x t ih =>
    obtain ⟨k1, v1⟩ := x
    show filterKey ((if (k1 == k) = true then (k, v) else (k1, v1)) :: t.map _) k
        = (filterKey ((k1, v1) :: t) k).map (fun _ => (k, v))
    by_cases hx : (k1 == k) = true
    · rw [if_pos hx]
      have he : k1 = k := eq_of_beq hx
      subst he
      rw [filterKey_cons_self, filterKey_cons_self, List.map_cons]
      rw [ih]
    · rw [if_neg hx]
      rw [Bool.not_eq_true] at hx
      rw [filterKey_cons_ne hx, filterKey_cons_ne hx]
      exact ih

theorem filterKey_upsert_ne (l : List (String × Option JVal)) (k' k : String)
    (v : Option JVal) (h : (k' == k) = false) :
    filterKey (upsertKV l k' v) k = filterKey l k := by
  unfold upsertKV
  by_cases ha : (l.any (fun p => p.1 == k')) = true
  · rw [if_pos ha]
    exact filterKey_map_replace l k' k v h
  · rw [if_neg ha]
    unfold filterKey
    rw [List.filter_append]
    have hz : List.filter (fun p => p.1 == k) [(k', v)] = [] := by
      rw [List.filter_cons_of_neg (by simp [h])]
      rfl
    rw [hz, List.append_nil]

theorem filterKey_upsert_self_pos (l : List (String × Option JVal)) (k : String)
    (v : Option JVal) (ha : (l.any (fun p => p.1 == k)) = true) :
    filterKey (upsertKV l k v) k = (filterKey l k).map (fun _ => (k, v)) := by
  unfold upsertKV
  rw [if_pos ha]
  exact filterKey_map_self l k v

theorem any_key_of_filterKey {α : Type} (l : List (String × α)) (k : String)
    (h : filterKey l k ≠ []) : l.any (fun p => p.1 == k) = true := by
  rw [List.any_eq_true]
  by_contra hc
  push_neg at hc
  apply h
  unfold filterKey
  rw [List.filter_eq_nil_iff]
  intro a ha
  intro hpa
  exact hc a ha hpa

theorem filterKey_foldl_upsert_ne (k : String) :
    ∀ (others : List (String × JVal)) (acc : List (String × Option JVal)),
      (∀ kv ∈ others, (kv.1 == k) = false) →
      filterKey (others.foldl (fun acc kv => upsertKV acc kv.1 (some kv.2)) acc) k
        = filterKey acc k := by
  intro others
  induction others with
  | nil => intro acc _; rfl
  | cons kv t ih =>
    intro acc h
    show filterKey (t.foldl _ (upsertKV acc kv.1 (some kv.2))) k = filterKey acc k
    rw [ih (upsertKV acc kv.1 (some kv.2)) (fun x hx => h x (List.mem_cons_of_mem _ hx))]
    exact filterKey_upsert_ne acc kv.1 k (some kv.2) (h kv (by simp))

theorem filterKey_dropUndefined (l : List (String × Option JVal)) (k : String) :
    filterKey (dropUndefined l) k = dropUndefined (filterKey l k) := by
  induction l with
  | nil => rfl
  | cons x t ih =>
    obtain ⟨k1, o⟩ := x
    cases o with
    | none =>
      have hl : dropUndefined ((k1, (none : Option JVal)) :: t) = dropUndefined t := by
        unfold dropUndefined
        rw [List.filterMap_cons_none]
        rfl
      rw [hl]
      cases hk : (k1 == k) with
      | true =>
        have he : k1 = k := eq_of_beq hk
        subst he
        rw [filterKey_cons_self]
        have hr : dropUndefined ((k1, (none : Option JVal)) :: filterKey t k1)
            = dropUndefined (filterKey t k1) := by
          unfold dropUndefined
          rw [List.filterMap_cons_none]
          rfl
        rw [hr]
        exact ih
      | false =>
        rw [filterKey_cons_ne hk]
        exact ih
    | some v =>
      have hl : dropUndefined ((k1, some v) :: t) = (k1, v) :: dropUndefined t := by
        unfold dropUndefined
        rw [List.filterMap_cons_some]
        rfl
      rw [hl]
      cases hk : (k1 == k) with
      | true =>
        have he : k1 = k := eq_of_beq hk
        subst he
        rw [filterKey_cons_self, filterKey_cons_self]
        have hr : dropUndefined ((k1, some v) :: filterKey t k1)
            = (k1, v) :: dropUndefined (filterKey t k1) := by
          unfold dropUndefined
          rw [List.filterMap_cons_some]
          rfl
        rw [hr, ih]
      | false =>
        rw [filterKey_cons_ne hk, filterKey_cons_ne hk]
        exact ih

theorem chainIdToShortName_ne_empty (cid : Int) (s : String)
    (h : chainIdToShortName cid = some s) : ¬ s = "" := by
  unfold chainIdToShortName at h
  rw [Option.map_eq_some'] at h
  obtain ⟨e, he, rfl⟩ := h
  have hm := List.mem_of_find?_eq_some he
  fin_cases hm <;> decide

theorem processedChains_eq_filterMap (ids : List Int) :
    (ids.map chainIdToShortName).filterMap jsTruthyName
      = ids.filterMap chainIdToShortName := by
  induction ids with
  | nil => rfl
  | cons id t ih =>
    rw [List.map_cons]
    cases hs : chainIdToShortName id with
    | none =>
      rw [List.filterMap_cons_none (by rfl), List.filterMap_cons_none hs]
      exact ih
    | some s =>
      have hne : ¬ s = "" := chainIdToShortName_ne_empty id s hs
      have ht : jsTruthyName (some s) = some s := by
        show (if s = "" then none else some s) = some s
        rw [if_neg hne]
      rw [List.filterMap_cons_some ht, List.filterMap_cons_some hs]
      rw [ih]

theorem jget_formatPreferences_base (p : PrefsIn) (k : String)
    (h : ∀ kv ∈ p.others, (kv.1 == k) = false) :
    jget (formatPreferences p) k
      = ((dropUndefined (filterKey
          [("tokens", prefTokensVal p), ("chains", prefChainsVal p)] k)).head?).map
        (fun q => q.2) := by
  unfold formatPreferences
  rw [jget_eq_head_filterKey, filterKey_dropUndefined]
  rw [filterKey_foldl_upsert_ne k p.others _ h]

/-- C6: convertPreferencesToText is the JSON serialization of the formatted
object; on inputs with no own tokens or chains property the tokens entry is
the comma join of tokenSymbols exactly when tokenSymbols is present (an
empty list gives the empty string), and the chains entry is the comma join
of the short names of the resolvable chain ids, omitted when chainIds is
absent or no id has a short name.  The concrete scenarios check the exact
output strings. -/
theorem c6_serializer :
    (∀ preferences : PrefsIn,
      convertPreferencesToText preferences
        = jsonStringify (JVal.obj (formatPreferences preferences)))
    ∧ (∀ (ci : Option (List Int)) (ts : Option (List String))
        (others : List (String × JVal)),
        (∀ kv ∈ others, kv.1 ≠ "tokens" ∧ kv.1 ≠ "chains") →
        jget (formatPreferences ⟨ci, ts, others⟩) "tokens"
            = ts.map (fun l => JVal.str (arrayToCommaString l))
        ∧ jget (formatPreferences ⟨ci, ts, others⟩) "chains"
            = (match ci with
               | none => none
               | some ids =>
                   if (ids.filterMap chainIdToShortName).length > 0
                   then some (JVal.str (arrayToCommaString
                     (ids.filterMap chainIdToShortName)))
                   else none))
    ∧ convertPreferencesToText ⟨some [1, 10], some ["ETH", "DAI"], []⟩
        = "\x7b\"tokens\":\"ETH,DAI\",\"chains\":\"eth,oeth\"\x7d"
    ∧ convertPreferencesToText ⟨some [], some [], []⟩ = "\x7b\"tokens\":\"\"\x7d"
    ∧ convertPreferencesToText ⟨some [1], none, []⟩ = "\x7b\"chains\":\"eth\"\x7d"
    ∧ convertPreferencesToText ⟨some [1, 999999], some ["ETH"], []⟩
        = "\x7b\"tokens\":\"ETH\",\"chains\":\"eth\"\x7d" := by
  refine ⟨fun _ => rfl, ?_, by decide, by decide, by decide, by decide⟩
  intro ci ts others h
  have h' : ∀ kv ∈ others, (kv.1 == "tokens") = false := by
    intro kv hkv
    simpa using (h kv hkv).1
  have h'' : ∀ kv ∈ others, (kv.1 == "chains") = false := by
    intro kv hkv
    simpa using (h kv hkv).2
  constructor
  · rw [jget_formatPreferences_base ⟨ci, ts, others⟩ "tokens" h']
    show ((dropUndefined (filterKey
        [("tokens", prefTokensVal ⟨ci, ts, others⟩),
         ("chains", prefChainsVal ⟨ci, ts, others⟩)] "tokens")).head?).map
        (fun q => q.2) = ts.map (fun l => JVal.str (arrayToCommaString l))
    rw [filterKey_cons_self, filterKey_cons_ne (by decide)]
    show ((dropUndefined [("tokens", prefTokensVal ⟨ci, ts, others⟩)]).head?).map
        (fun q => q.2) = ts.map (fun l => JVal.str (arrayToCommaString l))
    cases hts : ts with
    | none => rfl
    | some l => rfl
  · rw [jget_formatPreferences_base ⟨ci, ts, others⟩ "chains" h'']
    rw [filterKey_cons_ne (by decide), filterKey_cons_self]
    show ((dropUndefined [("chains", prefChainsVal ⟨ci, ts, others⟩)]).head?).map
        (fun q => q.2)
        = (match ci with
           | none => none
           | some ids =>
               if (ids.filterMap chainIdToShortName).length > 0
               then some (JVal.str (arrayToCommaString (ids.filterMap chainIdToShortName)))
               else none)
    cases hci : ci with
    | none => rfl
    | some ids =>
      show ((dropUndefined [("chains", prefChainsVal ⟨some ids, ts, others⟩)]).head?).map
          (fun q => q.2)
          = (if (ids.filterMap chainIdToShortName).length > 0
             then some (JVal.str (arrayToCommaString (ids.filterMap chainIdToShortName)))
             else none)
      have hpc : prefChainsVal ⟨some ids, ts, others⟩
          = (if (ids.filterMap chainIdToShortName).length > 0
             then some (JVal.str (arrayToCommaString (ids.filterMap chainIdToShortName)))
             else none) := by
        unfold prefChainsVal prefProcessedChains
        show (match some ((ids.map chainIdToShortName).filterMap jsTruthyName) with
              | some l => if l.length > 0 then some (JVal.str (arrayToCommaString l)) else none
              | none => none) = _
        rw [processedChains_eq_filterMap]
      rw [hpc]
      by_cases hl : (ids.filterMap chainIdToShortName).length > 0
      · rw [if_pos hl]
        rfl
      · rw [if_neg hl]
        rfl

theorem c6_witness :
    (∀ kv ∈ [(("redirectUrl" : String), JVal.str "https://x")],
        kv.1 ≠ "tokens" ∧ kv.1 ≠ "chains") ∧
    jget (formatPreferences ⟨some [1, 10], some ["ETH", "DAI"],
        [("redirectUrl", JVal.str "https://x")]⟩) "tokens" = some (JVal.str "ETH,DAI") := by
  constructor
  · decide
  · have h := (c6_serializer.2.1 (some [1, 10]) (some ["ETH", "DAI"])
      [("redirectUrl", JVal.str "https://x")] (by decide)).1
    rw [h]
    rfl

theorem nodup_key_split {others : List (String × JVal)} {k : String} {v : JVal}
    (hmem : (k, v) ∈ others) (hnd : (others.map Prod.fst).Nodup) :
    ∃ pre post, others = pre ++ (k, v) :: post ∧
      (∀ kv ∈ pre, (kv.1 == k) = false) ∧ (∀ kv ∈ post, (kv.1 == k) = false) := by
  obtain ⟨pre, post, rfl⟩ := List.append_of_mem hmem
  rw [List.map_append, List.map_cons] at hnd
  refine ⟨pre, post, rfl, ?_, ?_⟩
  · intro kv hkv
    have hk : k ∉ pre.map Prod.fst := by
      intro hc
      exact (List.disjoint_of_nodup_append hnd) hc (by simp)
    by_contra hb
    rw [Bool.not_eq_false] at hb
    have he : kv.1 = k := eq_of_beq hb
    exact hk (he ▸ List.mem_map_of_mem _ hkv)
  · intro kv hkv
    have h2 : ((k, v).1 :: post.map Prod.fst).Nodup := hnd.of_append_right
    have hk : k ∉ post.map Prod.fst := (List.nodup_cons.mp h2).1
    by_contra hb
    rw [Bool.not_eq_false] at hb
    have he : kv.1 = k := eq_of_beq hb
    exact hk (he ▸ List.mem_map_of_mem _ hkv)

theorem filterKey_foldl_upsert_mem (k : String) (v : JVal)
    (others : List (String × JVal)) (acc : List (String × Option JVal))
    (b0 : String × Option JVal) (hmem : (k, v) ∈ others)
    (hnd : (others.map Prod.fst).Nodup) (hacc : filterKey acc k = [b0]) :
    filterKey (others.foldl (fun a kv => upsertKV a kv.1 (some kv.2)) acc) k
      = [(k, some v)] := by
  obtain ⟨pre, post, rfl, hpre, hpost⟩ := nodup_key_split hmem hnd
  rw [List.foldl_append, List.foldl_cons]
  rw [filterKey_foldl_upsert_ne k post _ hpost]
  have h1 : filterKey (pre.foldl (fun a kv => upsertKV a kv.1 (some kv.2)) acc) k
      = [b0] := by
    rw [filterKey_foldl_upsert_ne k pre acc hpre, hacc]
  rw [filterKey_upsert_self_pos _ _ _ (any_key_of_filterKey _ _ (by rw [h1]; simp))]
  rw [h1]
  rfl

/-- C9: when the input object of convertPreferencesToText itself carries a
tokens or chains property, the verbatim property-copy loop overwrites the
computed comma-string value, so the serialized object's tokens and chains
entries equal the input's own values. -/
theorem c9_serializer_overwrite (ci : Option (List Int)) (ts : Option (List String))
    (others : List (String × JVal)) (hnd : (others.map Prod.fst).Nodup) :
    (∀ vT, ("tokens", vT) ∈ others →
      jget (formatPreferences ⟨ci, ts, others⟩) "tokens" = some vT)
    ∧ (∀ vC, ("chains", vC) ∈ others →
      jget (formatPreferences ⟨ci, ts, others⟩) "chains" = some vC) := by
  constructor
  · intro vT hmem
    unfold formatPreferences
    rw [jget_eq_head_filterKey, filterKey_dropUndefined]
    have hb : filterKey
        [("tokens", prefTokensVal ⟨ci, ts, others⟩),
         ("chains", prefChainsVal ⟨ci, ts, others⟩)] "tokens"
        = [("tokens", prefTokensVal ⟨ci, ts, others⟩)] := by
      rw [filterKey_cons_self, filterKey_cons_ne (by decide)]
      rfl
    rw [filterKey_foldl_upsert_mem "tokens" vT others _ _ hmem hnd hb]
    rfl
  · intro vC hmem
    unfold formatPreferences
    rw [jget_eq_head_filterKey, filterKey_dropUndefined]
    have hb : filterKey
        [("tokens", prefTokensVal ⟨ci, ts, others⟩),
         ("chains", prefChainsVal ⟨ci, ts, others⟩)] "chains"
        = [("chains", prefChainsVal ⟨ci, ts, others⟩)] := by
      rw [filterKey_cons_ne (by decide), filterKey_cons_self]
      rfl
    rw [filterKey_foldl_upsert_mem "chains" vC others _ _ hmem hnd hb]
    rfl

theorem c9_witness :
    (([("tokens", JVal.str "XYZ"), ("chains", JVal.str "abc")].map
        (Prod.fst (α := String) (β := JVal))).Nodup ∧
      ("tokens", JVal.str "XYZ")
        ∈ [("tokens", JVal.str "XYZ"), ("chains", JVal.str "abc")]) ∧
    jget (formatPreferences ⟨some [1], some ["ETH"],
        [("tokens", JVal.str "XYZ"), ("chains", JVal.str "abc")]⟩) "tokens"
      = some (JVal.str "XYZ") :=
  ⟨⟨by decide, List.mem_cons_self _ _⟩,
   (c9_serializer_overwrite (some [1]) (some ["ETH"])
      [("tokens", JVal.str "XYZ"), ("chains", JVal.str "abc")] (by decide)).1
     (JVal.str "XYZ") (List.mem_cons_self _ _)⟩

theorem firstSome_none_right {α : Type} (o : Option α) : firstSome o none = o := by
  cases o <;> rfl

theorem jget_cons_self (k : String) (v : JVal) (t : List (String × JVal)) :
    jget ((k, v) :: t) k = some v := by
  unfold jget
  rw [List.find?_cons_of_pos _ (by simp)]
  rfl

theorem jget_cons_ne {k1 k : String} (h : (k1 == k) = false) (v : JVal)
    (t : List (String × JVal)) :
    jget ((k1, v) :: t) k = jget t k := by
  unfold jget
  rw [List.find?_cons_of_neg _ (by simp [h])]

theorem jget_optEntry_self (k : String) (o : Option JVal) (rest : List (String × JVal)) :
    jget (optEntry k o ++ rest) k = firstSome o (jget rest k) := by
  cases o with
  | some v =>
    show jget ((k, v) :: rest) k = some v
    exact jget_cons_self k v rest
  | none =>
    show jget ([] ++ rest) k = jget rest k
    rw [List.nil_append]

theorem jget_optEntry_ne {k1 k : String} (h : (k1 == k) = false) (o : Option JVal)
    (rest : List (String × JVal)) :
    jget (optEntry k1 o ++ rest) k = jget rest k := by
  cases o with
  | some v =>
    show jget ((k1, v) :: rest) k = jget rest k
    exact jget_cons_ne h v rest
  | none =>
    show jget ([] ++ rest) k = jget rest k
    rw [List.nil_append]

theorem jget_extra_known_none (extra : List (String × JVal))
    (hE : ∀ q ∈ extra, KNOWN_KEYS.contains q.1 = false) (k : String)
    (hk : KNOWN_KEYS.contains k = true) : jget extra k = none := by
  unfold jget
  have hf : extra.find? (fun p => p.1 == k) = none := by
    rw [List.find?_eq_none]
    intro q hq hbeq
    have he : q.1 = k := eq_of_beq hbeq
    have := hE q hq
    rw [he, hk] at this
    cases this
  rw [hf]
  rfl

theorem jget_ptj_chainIds (p : Preferences) :
    jget (preferencesToJVal p) "chainIds" = some (JVal.arr (p.chainIds.map JVal.num)) := by
  unfold preferencesToJVal
  exact jget_cons_self _ _ _

theorem jget_ptj_tokenSymbols (p : Preferences) :
    jget (preferencesToJVal p) "tokenSymbols"
      = some (JVal.arr (p.tokenSymbols.map JVal.str)) := by
  unfold preferencesToJVal
  rw [jget_cons_ne (by decide)]
  exact jget_cons_self _ _ _

theorem jget_ptj_redirectUrl (p : Preferences)
    (hE : ∀ q ∈ p.extra, KNOWN_KEYS.contains q.1 = false) :
    jget (preferencesToJVal p) "redirectUrl" = p.redirectUrl.map JVal.str := by
  unfold preferencesToJVal
  rw [jget_cons_ne (by decide), jget_cons_ne (by decide), jget_optEntry_self,
    jget_optEntry_ne (by decide), jget_optEntry_ne (by decide),
    jget_optEntry_ne (by decide), jget_optEntry_ne (by decide),
    jget_extra_known_none p.extra hE "redirectUrl" (by decide)]
  exact firstSome_none_right _

theorem jget_ptj_currency (p : Preferences)
    (hE : ∀ q ∈ p.extra, KNOWN_KEYS.contains q.1 = false) :
    jget (preferencesToJVal p) "currency" = p.currency.map JVal.str := by
  unfold preferencesToJVal
  rw [jget_cons_ne (by decide), jget_cons_ne (by decide),
    jget_optEntry_ne (by decide), jget_optEntry_self,
    jget_optEntry_ne (by decide), jget_optEntry_ne (by decide),
    jget_optEntry_ne (by decide),
    jget_extra_known_none p.extra hE "currency" (by decide)]
  exact firstSome_none_right _

theorem jget_ptj_amount (p : Preferences)
    (hE : ∀ q ∈ p.extra, KNOWN_KEYS.contains q.1 = false) :
    jget (preferencesToJVal p) "amount" = p.amount.map JVal.num := by
  unfold preferencesToJVal
  rw [jget_cons_ne (by decide), jget_cons_ne (by decide),
    jget_optEntry_ne (by decide), jget_optEntry_ne (by decide), jget_optEntry_self,
    jget_optEntry_ne (by decide), jget_optEntry_ne (by decide),
    jget_extra_known_none p.extra hE "amount" (by decide)]
  exact firstSome_none_right _

theorem jget_ptj_webhooks (p : Preferences)
    (hE : ∀ q ∈ p.extra, KNOWN_KEYS.contains q.1 = false) :
    jget (preferencesToJVal p) "webhooks"
      = p.webhooks.map (fun l => JVal.arr (l.map JVal.str)) := by
  unfold preferencesToJVal
  rw [jget_cons_ne (by decide), jget_cons_ne (by decide),
    jget_optEntry_ne (by decide), jget_optEntry_ne (by decide),
    jget_optEntry_ne (by decide), jget_optEntry_self,
    jget_optEntry_ne (by decide),
    jget_extra_known_none p.extra hE "webhooks" (by decide)]
  exact firstSome_none_right _

theorem jget_ptj_og (p : Preferences)
    (hE : ∀ q ∈ p.extra, KNOWN_KEYS.contains q.1 = false) :
    jget (preferencesToJVal p) "og" = p.og.map ogToJVal := by
  unfold preferencesToJVal
  rw [jget_cons_ne (by decide), jget_cons_ne (by decide),
    jget_optEntry_ne (by decide), jget_optEntry_ne (by decide),
    jget_optEntry_ne (by decide), jget_optEntry_ne (by decide), jget_optEntry_self,
    jget_extra_known_none p.extra hE "og" (by decide)]
  exact firstSome_none_right _

theorem jget_ptj_chains (p : Preferences)
    (hE : ∀ q ∈ p.extra, KNOWN_KEYS.contains q.1 = false) :
    jget (preferencesToJVal p) "chains" = none := by
  unfold preferencesToJVal
  rw [jget_cons_ne (by decide), jget_cons_ne (by decide),
    jget_optEntry_ne (by decide), jget_optEntry_ne (by decide),
    jget_optEntry_ne (by decide), jget_optEntry_ne (by decide),
    jget_optEntry_ne (by decide)]
  exact jget_extra_known_none p.extra hE "chains" (by decide)

theorem jget_ptj_tokens (p : Preferences)
    (hE : ∀ q ∈ p.extra, KNOWN_KEYS.contains q.1 = false) :
    jget (preferencesToJVal p) "tokens" = none := by
  unfold preferencesToJVal
  rw [jget_cons_ne (by decide), jget_cons_ne (by decide),
    jget_optEntry_ne (by decide), jget_optEntry_ne (by decide),
    jget_optEntry_ne (by decide), jget_optEntry_ne (by decide),
    jget_optEntry_ne (by decide)]
  exact jget_extra_known_none p.extra hE "tokens" (by decide)

theorem parseAllStrings_map (l : List String) :
    parseAllStrings (l.map JVal.str) = some l := by
  induction l with
  | nil => rfl
  | cons s t ih =>
    show (parseAllStrings (t.map JVal.str)).map (fun l2 => s :: l2) = some (s :: t)
    rw [ih]
    rfl

theorem tokenRestore (l : List String) :
    tokenConfigParse (JVal.arr (l.map JVal.str)) = some l := parseAllStrings_map l

theorem parseAllStrOrNum_map_num (l : List Int) :
    parseAllStrOrNum (l.map JVal.num) = some (l.map Sum.inr) := by
  induction l with
  | nil => rfl
  | cons n t ih =>
    show (parseAllStrOrNum (t.map JVal.num)).map (fun l2 => Sum.inr n :: l2)
        = some (Sum.inr n :: t.map Sum.inr)
    rw [ih]
    rfl

theorem chainRestore (l : List Int)
    (h : ∀ id ∈ l, id ≠ 0 ∧ supportedChain id = true) :
    chainConfigParse (JVal.arr (l.map JVal.num)) = some l := by
  show chainArrayParse (l.map JVal.num) = some l
  unfold chainArrayParse
  rw [parseAllStrOrNum_map_num]
  show some (((l.map Sum.inr).map resolveChainElem).filterMap keepSupportedId) = some l
  congr 1
  induction l with
  | nil => rfl
  | cons id t ih =>
    have hid := h id (by simp)
    have hkeep : keepSupportedId (resolveChainElem (Sum.inr id)) = some id := by
      show (if (id != 0 && supportedChain id) = true then some id else none) = some id
      rw [if_pos]
      rw [Bool.and_eq_true]
      exact ⟨by simpa using hid.1, hid.2⟩
    rw [List.map_cons, List.map_cons, List.filterMap_cons_some hkeep]
    rw [ih (fun x hx => h x (by simp [hx]))]

theorem ogRestore (env : JsEnv) (o : Option String)
    (hog : ∀ s, o = some s → env.isURL s = true) :
    ogParse env (ogToJVal o) = some o := by
  cases o with
  | none => rfl
  | some s =>
    show (if env.isURL s = true then some (some s) else none) = some (some s)
    rw [if_pos (hog s rfl)]

theorem webhookItemParse_some (env : JsEnv) {v : JVal} {w : String}
    (h : webhookItemParse env v = some w) :
    env.isURL w = true ∧ jsStartsWith w "https://" = true := by
  cases v with
  | str s =>
    have h' : (if (env.isURL s && jsStartsWith s "https://") = true
        then some s else none) = some w := h
    by_cases hc : (env.isURL s && jsStartsWith s "https://") = true
    · rw [if_pos hc] at h'
      obtain rfl := Option.some.inj h'
      rw [Bool.and_eq_true] at hc
      exact hc
    · rw [if_neg hc] at h'
      cases h'
  | null => cases h
  | bool b => cases h
  | num n => cases h
  | arr a => cases h
  | obj fs => cases h

theorem parseWebhookList_props (env : JsEnv) :
    ∀ {xs : List JVal} {l : List String}, parseWebhookList env xs = some l →
      ∀ u ∈ l, env.isURL u = true ∧ jsStartsWith u "https://" = true := by
  intro xs
  induction xs with
  | nil =>
    intro l h
    obtain rfl := Option.some.inj h
    intro u hu
    cases hu
  | cons x t ih =>
    intro l h
    have h2 : (match webhookItemParse env x with
        | some w => (parseWebhookList env t).map (fun l2 => w :: l2)
        | none => none) = some l := h
    cases hi : webhookItemParse env x with
    | none => rw [hi] at h2; cases h2
    | some w =>
      rw [hi] at h2
      rw [Option.map_eq_some'] at h2
      obtain ⟨l2, hl2, rfl⟩ := h2
      intro u hu
      rcases List.mem_cons.mp hu with rfl | hu2
      · exact webhookItemParse_some env hi
      · exact ih hl2 u hu2

theorem webhooksParse_some_props (env : JsEnv) {v : JVal} {l : List String}
    (h : webhooksParse env v = some l) :
    l.length ≤ 15 ∧ ∀ u ∈ l, env.isURL u = true ∧ jsStartsWith u "https://" = true := by
  cases v with
  | arr xs =>
    have h2 : (match parseWebhookList env xs with
        | some l2 => if l2.length ≤ 15 then some l2 else none
        | none => none) = some l := h
    cases hp : parseWebhookList env xs with
    | none => rw [hp] at h2; cases h2
    | some l2 =>
      rw [hp] at h2
      have h3 : (if l2.length ≤ 15 then some l2 else none) = some l := h2
      by_cases hle : l2.length ≤ 15
      · rw [if_pos hle] at h3
        obtain rfl := Option.some.inj h3
        exact ⟨hle, parseWebhookList_props env hp⟩
      · rw [if_neg hle] at h3
        cases h3
  | null => cases h
  | bool b => cases h
  | num n => cases h
  | str s => cases h
  | obj fs => cases h

theorem redirectUrlParse_some (env : JsEnv) {v : JVal} {s : String}
    (h : redirectUrlParse env v = some s) : env.isURL s = true := by
  cases v with
  | str s' =>
    have h' : (if env.isURL s' = true then some s' else none) = some s := h
    by_cases hc : env.isURL s' = true
    · rw [if_pos hc] at h'
      obtain rfl := Option.some.inj h'
      exact hc
    · rw [if_neg hc] at h'
      cases h'
  | null => cases h
  | bool b => cases h
  | num n => cases h
  | arr a => cases h
  | obj fs => cases h

theorem amountParse_some {v : JVal} {n : Int} (h : amountParse v = some n) : 0 ≤ n := by
  cases v with
  | num m =>
    have h' : (if 0 ≤ m then some m else none) = some n := h
    by_cases hc : 0 ≤ m
    · rw [if_pos hc] at h'
      obtain rfl := Option.some.inj h'
      exact hc
    · rw [if_neg hc] at h'
      cases h'
  | null => cases h
  | bool b => cases h
  | str s => cases h
  | arr a => cases h
  | obj fs => cases h

theorem ogParse_some (env : JsEnv) {v : JVal} {o : Option String}
    (h : ogParse env v = some o) : ∀ s, o = some s → env.isURL s = true := by
  cases v with
  | obj fs =>
    rw [ogParse_obj_eval] at h
    cases hb : jget fs "baseUrl" with
    | none =>
      rw [hb] at h
      obtain rfl := Option.some.inj h
      intro s hs
      cases hs
    | some b =>
      rw [hb] at h
      cases b with
      | str s' =>
        have h' : (if env.isURL s' = true then some (some s') else none) = some o := h
        by_cases hc : env.isURL s' = true
        · rw [if_pos hc] at h'
          obtain rfl := Option.some.inj h'
          intro s hs
          obtain rfl := Option.some.inj hs
          exact hc
        · rw [if_neg hc] at h'
          cases h'
      | null => cases h
      | bool bb => cases h
      | num n => cases h
      | arr a => cases h
      | obj oo => cases h
  | null => cases h
  | bool b => cases h
  | num n => cases h
  | str s => cases h
  | arr a => cases h

theorem optField_some_some {α : Type} {fields : List (String × JVal)} {k : String}
    {pr : JVal → Option α} {a : α} (h : optField fields k pr = some (some a)) :
    ∃ v, pr v = some a := by
  unfold optField at h
  cases hg : jget fields k with
  | none =>
    rw [hg] at h
    obtain he := Option.some.inj h
    cases he
  | some v =>
    rw [hg] at h
    rw [Option.map_eq_some'] at h
    obtain ⟨a', ha, he⟩ := h
    obtain rfl := Option.some.inj he
    exact ⟨v, ha⟩

theorem optField_ptj_chainIds (env : JsEnv) (p : Preferences)
    (hCI : ∀ id ∈ p.chainIds, id ≠ 0 ∧ supportedChain id = true) :
    optField (preferencesToJVal p) "chainIds" chainConfigParse
      = some (some p.chainIds) := by
  unfold optField
  rw [jget_ptj_chainIds]
  show (chainConfigParse (JVal.arr (p.chainIds.map JVal.num))).map some
      = some (some p.chainIds)
  rw [chainRestore p.chainIds hCI]
  rfl

theorem optField_ptj_tokenSymbols (env : JsEnv) (p : Preferences) :
    optField (preferencesToJVal p) "tokenSymbols" tokenConfigParse
      = some (some p.tokenSymbols) := by
  unfold optField
  rw [jget_ptj_tokenSymbols]
  show (tokenConfigParse (JVal.arr (p.tokenSymbols.map JVal.str))).map some
      = some (some p.tokenSymbols)
  rw [tokenRestore]
  rfl

theorem optField_ptj_chains (env : JsEnv) (p : Preferences)
    (hE : ∀ q ∈ p.extra, KNOWN_KEYS.contains q.1 = false) :
    optField (preferencesToJVal p) "chains" chainConfigParse = some none := by
  unfold optField
  rw [jget_ptj_chains p hE]

theorem optField_ptj_tokens (env : JsEnv) (p : Preferences)
    (hE : ∀ q ∈ p.extra, KNOWN_KEYS.contains q.1 = false) :
    optField (preferencesToJVal p) "tokens" tokenConfigParse = some none := by
  unfold optField
  rw [jget_ptj_tokens p hE]

theorem optField_ptj_redirectUrl (env : JsEnv) (p : Preferences)
    (hE : ∀ q ∈ p.extra, KNOWN_KEYS.contains q.1 = false)
    (hru : ∀ s, p.redirectUrl = some s → env.isURL s = true) :
    optField (preferencesToJVal p) "redirectUrl" (redirectUrlParse env)
      = some p.redirectUrl := by
  unfold optField
  rw [jget_ptj_redirectUrl p hE]
  cases hr : p.redirectUrl with
  | none => rfl
  | some s =>
    show ((if env.isURL s = true then some s else none).map some) = some (some s)
    rw [if_pos (hru s hr)]
    rfl

theorem optField_ptj_currency (env : JsEnv) (p : Preferences)
    (hE : ∀ q ∈ p.extra, KNOWN_KEYS.contains q.1 = false) :
    optField (preferencesToJVal p) "currency" currencyParse = some p.currency := by
  unfold optField
  rw [jget_ptj_currency p hE]
  cases p.currency with
  | none => rfl
  | some s => rfl

theorem optField_ptj_amount (env : JsEnv) (p : Preferences)
    (hE : ∀ q ∈ p.extra, KNOWN_KEYS.contains q.1 = false)
    (ham : ∀ n, p.amount = some n → 0 ≤ n) :
    optField (preferencesToJVal p) "amount" amountParse = some p.amount := by
  unfold optField
  rw [jget_ptj_amount p hE]
  cases ha : p.amount with
  | none => rfl
  | some n =>
    show ((if 0 ≤ n then some n else none).map some) = some (some n)
    rw [if_pos (ham n ha)]
    rfl

theorem optField_ptj_webhooks (env : JsEnv) (p : Preferences)
    (hE : ∀ q ∈ p.extra, KNOWN_KEYS.contains q.1 = false)
    (hwh : ∀ l, p.webhooks = some l → l.length ≤ 15 ∧
      ∀ u ∈ l, env.isURL u = true ∧ jsStartsWith u "https://" = true) :
    optField (preferencesToJVal p) "webhooks" (webhooksParse env)
      = some p.webhooks := by
  unfold optField
  rw [jget_ptj_webhooks p hE]
  cases hw : p.webhooks with
  | none => rfl
  | some l =>
    show (webhooksParse env (JVal.arr (l.map JVal.str))).map some = some (some l)
    rw [webhooksParse_of_ok env l (hwh l hw).1 (hwh l hw).2]
    rfl

theorem optField_ptj_og (env : JsEnv) (p : Preferences)
    (hE : ∀ q ∈ p.extra, KNOWN_KEYS.contains q.1 = false)
    (hog : ∀ o, p.og = some o → ∀ s, o = some s → env.isURL s = true) :
    optField (preferencesToJVal p) "og" (ogParse env) = some p.og := by
  unfold optField
  rw [jget_ptj_og p hE]
  cases ho : p.og with
  | none => rfl
  | some o =>
    show (ogParse env (ogToJVal o)).map some = some (some o)
    rw [ogRestore env o (hog o ho)]
    rfl

/-- C8: validate is idempotent on its own output: when validate accepts an
input and produces the canonical object p, validating the object form of p
again succeeds and returns the same chainIds and tokenSymbols. -/
theorem c8_validate_idempotent (env : JsEnv) (x : JVal) (p : Preferences)
    (h : preferencesValidate env x = some p) :
    ∃ q, preferencesValidate env (JVal.obj (preferencesToJVal p)) = some q ∧
      q.chainIds = p.chainIds ∧ q.tokenSymbols = p.tokenSymbols := by
  obtain ⟨fields, hf⟩ : ∃ fields, parsePrefObject env fields = some p := by
    cases x with
    | obj fs => exact ⟨fs, h⟩
    | str s =>
      by_cases ht : jsTrim s ≠ ""
      · have hval : preferencesValidate env (JVal.str s)
            = (match (env.jsonParse s).getD (JVal.obj []) with
               | JVal.obj fields => parsePrefObject env fields
               | _ => none) := by
          show (match (if jsTrim s ≠ "" then (env.jsonParse s).getD (JVal.obj [])
                      else JVal.str s) with
                | JVal.obj fields => parsePrefObject env fields
                | _ => none) = _
          rw [if_pos ht]
        rw [hval] at h
        cases hj : env.jsonParse s with
        | none =>
          rw [hj] at h
          exact ⟨[], h⟩
        | some w =>
          rw [hj] at h
          cases w with
          | obj fs => exact ⟨fs, h⟩
          | null =>
            have hn : (none : Option Preferences) = some p := h
            cases hn
          | bool b =>
            have hn : (none : Option Preferences) = some p := h
            cases hn
          | num n =>
            have hn : (none : Option Preferences) = some p := h
            cases hn
          | str s2 =>
            have hn : (none : Option Preferences) = some p := h
            cases hn
          | arr a =>
            have hn : (none : Option Preferences) = some p := h
            cases hn
      · push_neg at ht
        have hval : preferencesValidate env (JVal.str s) = none := by
          simp [preferencesValidate, ht]
        rw [hval] at h
        cases h
    | null =>
      have hn : (none : Option Preferences) = some p := h
      cases hn
    | bool b =>
      have hn : (none : Option Preferences) = some p := h
      cases hn
    | num n =>
      have hn : (none : Option Preferences) = some p := h
      cases hn
    | arr a =>
      have hn : (none : Option Preferences) = some p := h
      cases hn
  rw [parsePrefObject_eq_some_iff] at hf
  obtain ⟨ci, ts, ch, tk, ru, cu, am, wh, og, h1, h2, h3, h4, h5, h6, h7, h8, h9, hp⟩ := hf
  have hpru : p.redirectUrl = ru := by rw [hp]
  have hpam : p.amount = am := by rw [hp]
  have hpwh : p.webhooks = wh := by rw [hp]
  have hpog : p.og = og := by rw [hp]
  have hE : ∀ q ∈ p.extra, KNOWN_KEYS.contains q.1 = false := by
    rw [hp]
    intro q hq
    have hpred := (List.mem_filter.mp hq).2
    simpa using hpred
  have hCI : ∀ id ∈ p.chainIds, id ≠ 0 ∧ supportedChain id = true := by
    rw [hp]
    show ∀ id ∈ (firstSome ch ci).getD [], id ≠ 0 ∧ supportedChain id = true
    cases ch with
    | some l =>
      obtain ⟨v, hv⟩ := optField_some_some h3
      exact chainConfigParse_mem hv
    | none =>
      cases ci with
      | some l =>
        obtain ⟨v, hv⟩ := optField_some_some h1
        exact chainConfigParse_mem hv
      | none =>
        intro id hid
        exact absurd hid (List.not_mem_nil id)
  have hRU : ∀ s, p.redirectUrl = some s → env.isURL s = true := by
    intro s hs
    rw [hpru] at hs
    rw [hs] at h5
    obtain ⟨v, hv⟩ := optField_some_some h5
    exact redirectUrlParse_some env hv
  have hAM : ∀ n, p.amount = some n → 0 ≤ n := by
    intro n hn
    rw [hpam] at hn
    rw [hn] at h7
    obtain ⟨v, hv⟩ := optField_some_some h7
    exact amountParse_some hv
  have hWH : ∀ l, p.webhooks = some l → l.length ≤ 15 ∧
      ∀ u ∈ l, env.isURL u = true ∧ jsStartsWith u "https://" = true := by
    intro l hl
    rw [hpwh] at hl
    rw [hl] at h8
    obtain ⟨v, hv⟩ := optField_some_some h8
    exact webhooksParse_some_props env hv
  have hOG : ∀ o, p.og = some o → ∀ s, o = some s → env.isURL s = true := by
    intro o ho
    rw [hpog] at ho
    rw [ho] at h9
    obtain ⟨v, hv⟩ := optField_some_some h9
    exact ogParse_some env hv
  refine ⟨{ chainIds := p.chainIds, tokenSymbols := p.tokenSymbols,
            redirectUrl := p.redirectUrl, currency := p.currency, amount := p.amount,
            webhooks := p.webhooks, og := p.og,
            extra := (preferencesToJVal p).filter
              (fun q => !(KNOWN_KEYS.contains q.1)) },
    ?_, rfl, rfl⟩
  rw [preferencesValidate_obj, parsePrefObject_eq_some_iff]
  exact ⟨some p.chainIds, some p.tokenSymbols, none, none, p.redirectUrl, p.currency,
    p.amount, p.webhooks, p.og,
    optField_ptj_chainIds env p hCI,
    optField_ptj_tokenSymbols env p,
    optField_ptj_chains env p hE,
    optField_ptj_tokens env p hE,
    optField_ptj_redirectUrl env p hE hRU,
    optField_ptj_currency env p hE,
    optField_ptj_amount env p hE hAM,
    optField_ptj_webhooks env p hE hWH,
    optField_ptj_og env p hE hOG,
    rfl⟩

def c8P : Preferences :=
  { chainIds := [1], tokenSymbols := [], redirectUrl := none, currency := none,
    amount := none, webhooks := none, og := none, extra := [("foo", JVal.str "bar")] }

theorem c8_witness :
    (preferencesValidate env0 (JVal.obj
        [("chains", JVal.arr [JVal.num 1]), ("foo", JVal.str "bar")]) = some c8P) ∧
    (∃ q, preferencesValidate env0 (JVal.obj (preferencesToJVal c8P)) = some q ∧
      q.chainIds = c8P.chainIds ∧ q.tokenSymbols = c8P.tokenSymbols) :=
  ⟨rfl, c8_validate_idempotent env0
    (JVal.obj [("chains", JVal.arr [JVal.num 1]), ("foo", JVal.str "bar")]) c8P rfl⟩

/-- C4 counterexample: the whitespace string " " is a non-empty string that
is not valid JSON, yet validate does not recover to the all-defaults object:
the trim check bypasses JSON decoding and structural validation fails. -/
theorem c4_counterexample :
    (" " : String) ≠ "" ∧ env0.jsonParse " " = none ∧
    ¬ preferencesValidate env0 (JVal.str " ") = some defaultPreferences ∧
    preferencesValidate env0 (JVal.str " ") = none := by
  refine ⟨by decide, rfl, ?_, rfl⟩
  intro hc
  have hn : (none : Option Preferences) = some defaultPreferences := hc
  cases hn
